import Mathlib

/-!
# Verification of the stitch-map work-progress engine

Shallow embedding of the navigation engine in `internal/model/work.go`
(flattener, cursor, advance/undo navigator, progress initialization),
together with the pattern-tree data model it consumes.

Database bookkeeping (numeric record ids of sessions/progress rows,
timestamps, SQL persistence) and display-only metadata (labels, stitch
names, expected counts, turning-chain data) are omitted: the navigation
logic never reads them.  Go `int`/`int64` values are embedded as `Int`;
a Go loop `for i := 0; i < n; i++` over an `int` bound becomes iteration
over `List.range n.toNat`, matching Go's zero iterations for `n ≤ 0`.
-/

namespace StitchMap

/-- One instruction step within a row: either an atomic stitch instruction
(`isGroup = false`, repeated `count` times) or a group header
(`isGroup = true`) holding child instructions and a group repeat count.
Mirrors `RowInstruction` in the source. -/
structure RowInstruction where
  id : Int
  count : Int
  isGroup : Bool
  groupRepeat : Int
  children : List RowInstruction
deriving Repr

/-- One position in the flattened instruction sequence of a row.
Mirrors `StitchPos` in the source. -/
structure StitchPos where
  instructionID : Int
  stitchIndex : Int
  groupRepeatIndex : Int
deriving Repr, DecidableEq

instance : Inhabited StitchPos := ⟨⟨0, 0, 0⟩⟩

/-- The persisted cursor of a work session.  Mirrors `WorkProgress` in the
source (record id, session id and timestamp omitted). -/
structure WorkProgress where
  sectionID : Int
  rowID : Int
  rowRepeatIndex : Int
  instructionID : Int
  stitchIndex : Int
  groupRepeatIndex : Int
  stitchesCompletedInRow : Int
deriving Repr, DecidableEq

instance : Inhabited WorkProgress := ⟨⟨0, 0, 0, 0, 0, 0, 0⟩⟩

/-- A row of a pattern section: its id, repeat count, and ordered
instruction list (already sorted by position, as the loader returns it).
Mirrors `Row` in the source. -/
structure Row where
  id : Int
  repeatCount : Int
  instructions : List RowInstruction
deriving Repr

instance : Inhabited Row := ⟨⟨0, 0, []⟩⟩

/-- A pattern section: its id and ordered rows.  Mirrors `PatternSection`. -/
structure PatternSection where
  id : Int
  rows : List Row
deriving Repr

/-- `FlattenInstructions` produces the ordered flat list of every stitch
position for a row, expanding groups across all repeats.  Mirrors
`FlattenInstructions` in the source: atomic instructions emit `count`
units with `groupRepeatIndex` 0; groups emit, for each repeat, each
child's `count` units in child order. -/
def FlattenInstructions (instructions : List RowInstruction) : List StitchPos :=
  instructions.flatMap fun ri =>
    if ri.isGroup then
      (List.range ri.groupRepeat.toNat).flatMap fun (grp : Nat) =>
        ri.children.flatMap fun child =>
          (List.range child.count.toNat).map fun (si : Nat) =>
            { instructionID := child.id, stitchIndex := (si : Int),
              groupRepeatIndex := (grp : Int) }
    else
      (List.range ri.count.toNat).map fun (si : Nat) =>
        { instructionID := ri.id, stitchIndex := (si : Int), groupRepeatIndex := 0 }

/-- The matching test of `FindFlatIndex`: the flat position carries exactly
the cursor's (instructionId, stitchIndex, groupRepeatIndex) triple. -/
abbrev matchesProgress (pos : StitchPos) (p : WorkProgress) : Prop :=
  pos.instructionID = p.instructionID ∧ pos.stitchIndex = p.stitchIndex ∧
    pos.groupRepeatIndex = p.groupRepeatIndex

/-- First index of the cursor's stitch-unit in the flat list, if any
(the loop of `FindFlatIndex` before its `-1` default). -/
def findFlatIdx? (flat : List StitchPos) (p : WorkProgress) : Option Nat :=
  match flat with
  | [] => none
  | pos :: rest =>
    if matchesProgress pos p then some 0
    else (findFlatIdx? rest p).map (· + 1)

/-- `FindFlatIndex` returns the index of the progress position in the flat
list, or -1 if not found.  Mirrors `FindFlatIndex` in the source. -/
def FindFlatIndex (flat : List StitchPos) (p : WorkProgress) : Int :=
  match findFlatIdx? flat p with
  | some i => (i : Int)
  | none => -1

/-- `findSectionByID` returns the section with the given id and its index,
scanning in order; `none` replaces Go's `(nil, -1)`. -/
def findSectionByID (sections : List PatternSection) (id : Int) :
    Option (PatternSection × Nat) :=
  match sections with
  | [] => none
  | s :: rest =>
    if s.id = id then some (s, 0)
    else (findSectionByID rest id).map fun p => (p.1, p.2 + 1)

/-- `findRowByID` returns the row with the given id and its index, scanning
in order; `none` replaces Go's `(nil, -1)`. -/
def findRowByID (rows : List Row) (id : Int) : Option (Row × Nat) :=
  match rows with
  | [] => none
  | r :: rest =>
    if r.id = id then some (r, 0)
    else (findRowByID rest id).map fun p => (p.1, p.2 + 1)

/-- `setToFirstStitch` points the cursor at the first unit of `flat` (when
non-empty) and zeroes `stitchesCompletedInRow`.  Mirrors the source. -/
def setToFirstStitch (p : WorkProgress) (flat : List StitchPos) : WorkProgress :=
  match flat with
  | [] => { p with stitchesCompletedInRow := 0 }
  | first :: _ =>
    { p with instructionID := first.instructionID, stitchIndex := first.stitchIndex,
             groupRepeatIndex := first.groupRepeatIndex, stitchesCompletedInRow := 0 }

/-- `setToLastStitch` points the cursor at the last unit of `flat` with
`stitchesCompletedInRow = length - 1`; does nothing on an empty list.
Mirrors the source. -/
def setToLastStitch (p : WorkProgress) (flat : List StitchPos) : WorkProgress :=
  match flat.getLast? with
  | none => p
  | some last =>
    { p with instructionID := last.instructionID, stitchIndex := last.stitchIndex,
             groupRepeatIndex := last.groupRepeatIndex,
             stitchesCompletedInRow := (flat.length : Int) - 1 }

/-- Forward scan of a row list for the first row with a non-empty flattened
sequence (the inner loop of the section scan in `AdvanceProgress` and of
`InitProgress`). -/
def scanRowsForward (rows : List Row) : Option (Row × List StitchPos) :=
  match rows with
  | [] => none
  | row :: rest =>
    let flat := FlattenInstructions row.instructions
    if flat = [] then scanRowsForward rest else some (row, flat)

/-- Forward scan of a section list for the first section containing a row
with a non-empty flattened sequence (the `for si := sIdx + 1; ...` loop of
`AdvanceProgress` and the outer loop of `InitProgress`). -/
def scanSectionsForward (sections : List PatternSection) :
    Option (PatternSection × Row × List StitchPos) :=
  match sections with
  | [] => none
  | sec :: rest =>
    match scanRowsForward sec.rows with
    | some (row, flat) => some (sec, row, flat)
    | none => scanSectionsForward rest

/-- Backward scan of a row list for the last row with a non-empty flattened
sequence (the `for ri := len(rows) - 1; ...` loop of `UndoProgress`). -/
def scanRowsBackward (rows : List Row) : Option (Row × List StitchPos) :=
  match rows with
  | [] => none
  | row :: rest =>
    match scanRowsBackward rest with
    | some r => some r
    | none =>
      let flat := FlattenInstructions row.instructions
      if flat = [] then none else some (row, flat)

/-- Backward scan of a section list for the last section containing a row
with a non-empty flattened sequence (the `for si := sIdx - 1; ...` loop of
`UndoProgress`). -/
def scanSectionsBackward (sections : List PatternSection) :
    Option (PatternSection × Row × List StitchPos) :=
  match sections with
  | [] => none
  | sec :: rest =>
    match scanSectionsBackward rest with
    | some r => some r
    | none => (scanRowsBackward sec.rows).map fun p => (sec, p.1, p.2)

/-- Navigation errors raised by `AdvanceProgress`/`UndoProgress`: the
cursor names a section or row that no longer exists in the tree
(`fmt.Errorf("section %d not found")` / `("row %d not found")`). -/
inductive NavError where
  | sectionNotFound (id : Int)
  | rowNotFound (id : Int)
deriving Repr, DecidableEq

/-- The per-session persistent state the navigator reads and writes: the
session's completion flag (`completed_at != nil`) and its cursor record. -/
structure EngineState where
  completed : Bool
  progress : WorkProgress
deriving Repr, DecidableEq

/-- `AdvanceProgress` moves progress forward by one stitch, returning the
new persistent state and the `completed` flag the Go function returns.
Mirrors `AdvanceProgress` in the source, branch for branch; the two
`fmt.Errorf` lookup failures become `NavError`s. -/
def AdvanceProgress (sections : List PatternSection) (st : EngineState) :
    Except NavError (EngineState × Bool) :=
  if st.completed then .ok (st, true)
  else
    let progress := st.progress
    match findSectionByID sections progress.sectionID with
    | none => .error (.sectionNotFound progress.sectionID)
    | some (sec, sIdx) =>
      match findRowByID sec.rows progress.rowID with
      | none => .error (.rowNotFound progress.rowID)
      | some (row, rIdx) =>
        let flat := FlattenInstructions row.instructions
        let curIdx := FindFlatIndex flat progress
        if curIdx + 1 < (flat.length : Int) then
          let next := flat.getD (curIdx + 1).toNat default
          .ok ({ st with progress :=
            { progress with
                instructionID := next.instructionID,
                stitchIndex := next.stitchIndex,
                groupRepeatIndex := next.groupRepeatIndex,
                stitchesCompletedInRow := curIdx + 1 } }, false)
        else
          let base := { progress with stitchesCompletedInRow := (0 : Int) }
          if progress.rowRepeatIndex + 1 < row.repeatCount then
            let newProg :=
              setToFirstStitch { base with rowRepeatIndex := progress.rowRepeatIndex + 1 } flat
            .ok ({ st with progress := newProg }, false)
          else
            let base := { base with rowRepeatIndex := (0 : Int) }
            let nextRowStep : Option (EngineState × Bool) :=
              match sec.rows.get? (rIdx + 1) with
              | none => none
              | some nextRow =>
                let nextFlat := FlattenInstructions nextRow.instructions
                if nextFlat = [] then none
                else
                  let newProg := setToFirstStitch { base with rowID := nextRow.id } nextFlat
                  some ({ st with progress := newProg }, false)
            match nextRowStep with
            | some r => .ok r
            | none =>
              match scanSectionsForward (sections.drop (sIdx + 1)) with
              | some (nsec, nrow, nflat) =>
                let newProg :=
                  setToFirstStitch { base with sectionID := nsec.id, rowID := nrow.id } nflat
                .ok ({ st with progress := newProg }, false)
              | none => .ok ({ st with completed := true }, true)

/-- `UndoProgress` moves progress backward by one stitch; a no-op at the
very beginning.  Every non-no-op move clears the session's completion flag.
Mirrors `UndoProgress` in the source. -/
def UndoProgress (sections : List PatternSection) (st : EngineState) :
    Except NavError EngineState :=
  let progress := st.progress
  match findSectionByID sections progress.sectionID with
  | none => .error (.sectionNotFound progress.sectionID)
  | some (sec, sIdx) =>
    match findRowByID sec.rows progress.rowID with
    | none => .error (.rowNotFound progress.rowID)
    | some (row, rIdx) =>
      let flat := FlattenInstructions row.instructions
      let curIdx := FindFlatIndex flat progress
      if curIdx > 0 then
        let prev := flat.getD (curIdx - 1).toNat default
        .ok { completed := false, progress :=
          { progress with
              instructionID := prev.instructionID,
              stitchIndex := prev.stitchIndex,
              groupRepeatIndex := prev.groupRepeatIndex,
              stitchesCompletedInRow := curIdx - 1 } }
      else if progress.rowRepeatIndex > 0 then
        let newProg :=
          setToLastStitch { progress with rowRepeatIndex := progress.rowRepeatIndex - 1 } flat
        .ok { completed := false, progress := newProg }
      else
        let prevRowStep : Option EngineState :=
          if rIdx = 0 then none
          else
            let prevRow := sec.rows.getD (rIdx - 1) default
            let prevFlat := FlattenInstructions prevRow.instructions
            if prevFlat = [] then none
            else
              let newProg := setToLastStitch
                { progress with
                    rowID := prevRow.id, rowRepeatIndex := prevRow.repeatCount - 1 }
                prevFlat
              some { completed := false, progress := newProg }
        match prevRowStep with
        | some r => .ok r
        | none =>
          match scanSectionsBackward (sections.take sIdx) with
          | some (psec, prow, pflat) =>
            let newProg := setToLastStitch
              { progress with
                  sectionID := psec.id, rowID := prow.id,
                  rowRepeatIndex := prow.repeatCount - 1 }
              pflat
            .ok { completed := false, progress := newProg }
          | none => .ok st

/-- `InitProgress` computes the initial cursor for a session: the first
stitch of the first row anywhere with a non-empty flattened sequence,
scanning sections and rows in order; `none` replaces the
`"pattern has no instructions to track"` error.  Mirrors `InitProgress`
(whose loop has exactly the structure of the forward scans). -/
def InitProgress (sections : List PatternSection) : Option WorkProgress :=
  match scanSectionsForward sections with
  | none => none
  | some (sec, row, flat) =>
    let first := flat.headD default
    some { sectionID := sec.id, rowID := row.id, rowRepeatIndex := 0,
           instructionID := first.instructionID, stitchIndex := first.stitchIndex,
           groupRepeatIndex := first.groupRepeatIndex, stitchesCompletedInRow := 0 }

/-! ## Derived notions used to state the specification's properties -/

/-- `m`-fold iteration of `AdvanceProgress` from a state, threading errors
(each navigation request runs one `AdvanceProgress` call). -/
def advanceTimes (sections : List PatternSection) (st : EngineState) :
    Nat → Except NavError EngineState
  | 0 => .ok st
  | n + 1 =>
    match advanceTimes sections st n with
    | .error e => .error e
    | .ok st' =>
      match AdvanceProgress sections st' with
      | .error e => .error e
      | .ok (st'', _) => .ok st''

/-- Total stitch-units contributed by one row: its flattened length times
its repeat count (zero when the repeat count is not positive). -/
def unitsOfRow (r : Row) : Nat :=
  r.repeatCount.toNat * (FlattenInstructions r.instructions).length

/-- Total stitch-units of a section. -/
def unitsOfSection (sec : PatternSection) : Nat :=
  (sec.rows.map unitsOfRow).sum

/-- Total stitch-units of a pattern across all sections, rows and row
repeats — the `N` of the completion-reachability property. -/
def totalUnits (sections : List PatternSection) : Nat :=
  (sections.map unitsOfSection).sum

/-- Every row of every section flattens to a non-empty sequence. -/
def NoEmptyRows (sections : List PatternSection) : Prop :=
  ∀ sec ∈ sections, ∀ r ∈ sec.rows, FlattenInstructions r.instructions ≠ []

/-- All instruction identifiers occurring in an instruction list: each
top-level id followed by its children's ids. -/
def allInstrIds (instructions : List RowInstruction) : List Int :=
  instructions.flatMap fun ri => ri.id :: ri.children.map RowInstruction.id

/-- Well-formedness of the pattern tree as the authoring subsystem
guarantees it: distinct section ids, distinct row ids per section, row
repeat counts at least 1, and distinct instruction ids within each row. -/
def WFPattern (sections : List PatternSection) : Prop :=
  (sections.map PatternSection.id).Nodup ∧
    ∀ sec ∈ sections, (sec.rows.map Row.id).Nodup ∧
      ∀ r ∈ sec.rows, 1 ≤ r.repeatCount ∧ (allInstrIds r.instructions).Nodup

/-- The cursor invariant of the specification: the cursor's section and row
exist, its (instructionId, stitchIndex, groupRepeatIndex) triple occurs in
the current row's flattened sequence, and `stitchesCompletedInRow` is the
index `FindFlatIndex` locates it at. -/
def CursorInv (sections : List PatternSection) (p : WorkProgress) : Prop :=
  ∃ sec sIdx row rIdx i,
    findSectionByID sections p.sectionID = some (sec, sIdx) ∧
    findRowByID sec.rows p.rowID = some (row, rIdx) ∧
    findFlatIdx? (FlattenInstructions row.instructions) p = some i ∧
    p.stitchesCompletedInRow = (i : Int)

/-- A cursor as produced by initialization and maintained by Advance/Undo:
the cursor invariant together with the row-repeat index lying in
`[0, repeatCount)` for the current row. -/
def ValidCursor (sections : List PatternSection) (p : WorkProgress) : Prop :=
  ∃ sec sIdx row rIdx i,
    findSectionByID sections p.sectionID = some (sec, sIdx) ∧
    findRowByID sec.rows p.rowID = some (row, rIdx) ∧
    findFlatIdx? (FlattenInstructions row.instructions) p = some i ∧
    p.stitchesCompletedInRow = (i : Int) ∧
    0 ≤ p.rowRepeatIndex ∧ p.rowRepeatIndex < row.repeatCount

/-! ## Concrete patterns used as test vectors

`demoSections` is the concrete scenario of the specification's §8:
section "S" with Row A (`sc×3`, repeat 1) then Row B (one group,
repeat 2, children `[sc×1, inc×1]`, row repeat 1); 7 stitch-units total.
`gapSections` has a section whose middle row is empty with a non-empty
row after it, followed by a second section — the two-consecutive-scan
asymmetry scenario.  `soloSections` is a one-unit pattern. -/

/-- Row A's single atomic instruction `sc×3` (id 1). -/
def scA : RowInstruction := ⟨1, 3, false, 0, []⟩

/-- Row B's group (id 2, repeat 2) with children `sc×1` (id 3) and
`inc×1` (id 4). -/
def grpB : RowInstruction := ⟨2, 0, true, 2, [⟨3, 1, false, 0, []⟩, ⟨4, 1, false, 0, []⟩]⟩

/-- Row A (id 10, repeat 1). -/
def rowA : Row := ⟨10, 1, [scA]⟩

/-- Row B (id 11, repeat 1). -/
def rowB : Row := ⟨11, 1, [grpB]⟩

/-- The §8 demo pattern: one section (id 100) with rows A and B. -/
def demoSections : List PatternSection := [⟨100, [rowA, rowB]⟩]

/-- The initial engine state for the §8 demo pattern. -/
def demoInit : EngineState := ⟨false, ⟨100, 10, 0, 1, 0, 0, 0⟩⟩

/-- One-unit row (id 1) of the gap pattern. -/
def gapRow1 : Row := ⟨1, 1, [⟨1, 1, false, 0, []⟩]⟩

/-- Empty row (id 2) of the gap pattern. -/
def gapRow2 : Row := ⟨2, 1, []⟩

/-- One-unit row (id 3) of the gap pattern, after the empty row. -/
def gapRow3 : Row := ⟨3, 1, [⟨2, 1, false, 0, []⟩]⟩

/-- One-unit row (id 4) of the gap pattern's second section. -/
def gapRow4 : Row := ⟨4, 1, [⟨3, 1, false, 0, []⟩]⟩

/-- First section of the gap pattern: non-empty, empty, non-empty rows. -/
def gapSec1 : PatternSection := ⟨1, [gapRow1, gapRow2, gapRow3]⟩

/-- Second section of the gap pattern. -/
def gapSec2 : PatternSection := ⟨2, [gapRow4]⟩

/-- Pattern with an empty row (id 2) between two non-empty rows in its
first section, and a second section: section 1 rows are a one-unit row
(id 1), an empty row (id 2), a one-unit row (id 3); section 2 (id 2) has
the one-unit row id 4. -/
def gapSections : List PatternSection := [gapSec1, gapSec2]

/-- A pattern whose only row has no instructions at all. -/
def noUnitSections : List PatternSection := [⟨1, [⟨10, 1, []⟩]⟩]

/-- Stitch-units still to be worked from a cursor position (the current
unit included): the rest of the current row repeat, the remaining
repeats of the current row, the rows after it in its section, and all
later sections.  Zero when the cursor's section, row or unit cannot be
found. -/
def remainingUnits (sections : List PatternSection) (p : WorkProgress) : Nat :=
  match findSectionByID sections p.sectionID with
  | none => 0
  | some (sec, sIdx) =>
    match findRowByID sec.rows p.rowID with
    | none => 0
    | some (row, rIdx) =>
      let flat := FlattenInstructions row.instructions
      let k := (findFlatIdx? flat p).getD 0
      (flat.length - k)
        + (row.repeatCount - 1 - p.rowRepeatIndex).toNat * flat.length
        + ((sec.rows.drop (rIdx + 1)).map unitsOfRow).sum
        + ((sections.drop (sIdx + 1)).map unitsOfSection).sum

/-- State with the cursor on the single unit of row 1 of `gapSections`. -/
def gapStart : EngineState := ⟨false, ⟨1, 1, 0, 1, 0, 0, 0⟩⟩

/-- A pattern with exactly one stitch-unit. -/
def soloSections : List PatternSection := [⟨1, [⟨1, 1, [⟨1, 1, false, 0, []⟩]⟩]⟩]

/-- State with the cursor on the single unit of `soloSections`. -/
def soloStart : EngineState := ⟨false, ⟨1, 1, 0, 1, 0, 0, 0⟩⟩

/-! ## Lemmas about the matching and lookup primitives -/

theorem matchesProgress_inj {pos pos' : StitchPos} {p : WorkProgress}
    (h : matchesProgress pos p) (h' : matchesProgress pos' p) : pos = pos' := by
  obtain ⟨h1, h2, h3⟩ := h
  obtain ⟨h1', h2', h3'⟩ := h'
  cases pos; cases pos'
  simp_all

theorem findFlatIdx?_some {flat : List StitchPos} {p : WorkProgress} {i : Nat}
    (h : findFlatIdx? flat p = some i) :
    i < flat.length ∧ matchesProgress (flat.getD i default) p := by
  induction flat generalizing i with
  | nil => simp [findFlatIdx?] at h
  | cons pos rest ih =>
    rw [findFlatIdx?] at h
    by_cases hm : matchesProgress pos p
    · rw [if_pos hm] at h
      cases h
      exact ⟨Nat.succ_pos _, hm⟩
    · rw [if_neg hm] at h
      obtain ⟨j, hj, rfl⟩ := Option.map_eq_some'.mp h
      obtain ⟨hlt, hmj⟩ := ih hj
      exact ⟨Nat.succ_lt_succ hlt, by simpa using hmj⟩

theorem findFlatIdx?_of_getD {flat : List StitchPos} {p : WorkProgress} {i : Nat}
    (hnd : flat.Nodup) (hi : i < flat.length)
    (hm : matchesProgress (flat.getD i default) p) :
    findFlatIdx? flat p = some i := by
  induction flat generalizing i with
  | nil => cases hi
  | cons pos rest ih =>
    cases i with
    | zero =>
      rw [findFlatIdx?, if_pos (by simpa using hm)]
    | succ j =>
      have hj : j < rest.length := Nat.lt_of_succ_lt_succ hi
      have hm' : matchesProgress (rest.getD j default) p := by simpa using hm
      have hnot : ¬ matchesProgress pos p := by
        intro hc
        have heq : pos = rest.getD j default := matchesProgress_inj hc hm'
        have hmem : rest.getD j default ∈ rest := by
          rw [List.getD_eq_getElem _ _ hj]
          exact List.getElem_mem hj
        rw [← heq] at hmem
        exact (List.nodup_cons.mp hnd).1 hmem
      rw [findFlatIdx?, if_neg hnot, ih (List.nodup_cons.mp hnd).2 hj hm']
      rfl

theorem findFlatIdx?_head {pos : StitchPos} {rest : List StitchPos} {p : WorkProgress}
    (hm : matchesProgress pos p) : findFlatIdx? (pos :: rest) p = some 0 := by
  rw [findFlatIdx?, if_pos hm]

theorem findSectionByID_some {sections : List PatternSection} {id : Int}
    {sec : PatternSection} {sIdx : Nat}
    (h : findSectionByID sections id = some (sec, sIdx)) :
    sections.get? sIdx = some sec ∧ sec.id = id := by
  induction sections generalizing sIdx with
  | nil => simp [findSectionByID] at h
  | cons s rest ih =>
    rw [findSectionByID] at h
    by_cases hid : s.id = id
    · rw [if_pos hid] at h
      cases h
      exact ⟨rfl, hid⟩
    · rw [if_neg hid] at h
      obtain ⟨⟨sec', j⟩, hj, heq⟩ := Option.map_eq_some'.mp h
      cases heq
      obtain ⟨h1, h2⟩ := ih hj
      exact ⟨h1, h2⟩

theorem findSectionByID_of_get? {sections : List PatternSection} {sIdx : Nat}
    {sec : PatternSection} (hnd : (sections.map PatternSection.id).Nodup)
    (hget : sections.get? sIdx = some sec) :
    findSectionByID sections sec.id = some (sec, sIdx) := by
  induction sections generalizing sIdx with
  | nil => simp at hget
  | cons s rest ih =>
    cases sIdx with
    | zero =>
      cases hget
      rw [findSectionByID, if_pos rfl]
    | succ j =>
      have hmem : sec ∈ rest := List.get?_mem hget
      have hne : s.id ≠ sec.id := by
        intro hc
        have : sec.id ∈ rest.map PatternSection.id := List.mem_map_of_mem _ hmem
        rw [← hc] at this
        exact (List.nodup_cons.mp (by simpa using hnd)).1 this
      rw [findSectionByID, if_neg hne,
        ih (List.nodup_cons.mp (by simpa using hnd)).2 hget]
      rfl

theorem findRowByID_some {rows : List Row} {id : Int} {row : Row} {rIdx : Nat}
    (h : findRowByID rows id = some (row, rIdx)) :
    rows.get? rIdx = some row ∧ row.id = id := by
  induction rows generalizing rIdx with
  | nil => simp [findRowByID] at h
  | cons r rest ih =>
    rw [findRowByID] at h
    by_cases hid : r.id = id
    · rw [if_pos hid] at h
      cases h
      exact ⟨rfl, hid⟩
    · rw [if_neg hid] at h
      obtain ⟨⟨row', j⟩, hj, heq⟩ := Option.map_eq_some'.mp h
      cases heq
      obtain ⟨h1, h2⟩ := ih hj
      exact ⟨h1, h2⟩

theorem findRowByID_of_get? {rows : List Row} {rIdx : Nat} {row : Row}
    (hnd : (rows.map Row.id).Nodup) (hget : rows.get? rIdx = some row) :
    findRowByID rows row.id = some (row, rIdx) := by
  induction rows generalizing rIdx with
  | nil => simp at hget
  | cons r rest ih =>
    cases rIdx with
    | zero =>
      cases hget
      rw [findRowByID, if_pos rfl]
    | succ j =>
      have hmem : row ∈ rest := List.get?_mem hget
      have hne : r.id ≠ row.id := by
        intro hc
        have : row.id ∈ rest.map Row.id := List.mem_map_of_mem _ hmem
        rw [← hc] at this
        exact (List.nodup_cons.mp (by simpa using hnd)).1 this
      rw [findRowByID, if_neg hne,
        ih (List.nodup_cons.mp (by simpa using hnd)).2 hget]
      rfl

/-! ## Lemmas about the row/section scans -/

theorem scanRowsForward_eq_none {rows : List Row} :
    scanRowsForward rows = none ↔
      ∀ r ∈ rows, FlattenInstructions r.instructions = [] := by
  induction rows with
  | nil => simp [scanRowsForward]
  | cons row rest ih =>
    rw [scanRowsForward]
    by_cases h : FlattenInstructions row.instructions = []
    · simp [h, ih]
    · simp [h]

theorem scanRowsForward_eq_some {rows : List Row} {row : Row} {flat : List StitchPos}
    (h : scanRowsForward rows = some (row, flat)) :
    flat = FlattenInstructions row.instructions ∧ flat ≠ [] ∧
      ∃ i, rows.get? i = some row ∧
        ∀ j r', j < i → rows.get? j = some r' →
          FlattenInstructions r'.instructions = [] := by
  induction rows with
  | nil => simp [scanRowsForward] at h
  | cons r rest ih =>
    rw [scanRowsForward] at h
    by_cases he : FlattenInstructions r.instructions = []
    · rw [if_pos he] at h
      obtain ⟨h1, h2, i, h3, h4⟩ := ih h
      refine ⟨h1, h2, i + 1, h3, ?_⟩
      intro j r' hj hget
      cases j with
      | zero => cases hget; exact he
      | succ j' => exact h4 j' r' (Nat.lt_of_succ_lt_succ hj) hget
    · rw [if_neg he] at h
      cases h
      exact ⟨rfl, he, 0, rfl, fun j r' hj _ => absurd hj (Nat.not_lt_zero j)⟩

theorem scanRowsForward_cons_of_ne {row : Row} {rest : List Row}
    (h : FlattenInstructions row.instructions ≠ []) :
    scanRowsForward (row :: rest) = some (row, FlattenInstructions row.instructions) := by
  rw [scanRowsForward, if_neg h]

theorem scanSectionsForward_eq_none {sections : List PatternSection} :
    scanSectionsForward sections = none ↔
      ∀ sec ∈ sections, scanRowsForward sec.rows = none := by
  induction sections with
  | nil => simp [scanSectionsForward]
  | cons sec rest ih =>
    rw [scanSectionsForward]
    cases hs : scanRowsForward sec.rows with
    | none => simp [hs, ih]
    | some r => simp [hs]

theorem scanSectionsForward_eq_some {sections : List PatternSection}
    {nsec : PatternSection} {nrow : Row} {nflat : List StitchPos}
    (h : scanSectionsForward sections = some (nsec, nrow, nflat)) :
    ∃ j, sections.get? j = some nsec ∧
      scanRowsForward nsec.rows = some (nrow, nflat) ∧
      ∀ j' sec', j' < j → sections.get? j' = some sec' →
        scanRowsForward sec'.rows = none := by
  induction sections with
  | nil => simp [scanSectionsForward] at h
  | cons sec rest ih =>
    rw [scanSectionsForward] at h
    cases hs : scanRowsForward sec.rows with
    | none =>
      rw [hs] at h
      obtain ⟨j, h1, h2, h3⟩ := ih h
      refine ⟨j + 1, h1, h2, ?_⟩
      intro j' sec' hj hget
      cases j' with
      | zero => cases hget; exact hs
      | succ j'' => exact h3 j'' sec' (Nat.lt_of_succ_lt_succ hj) hget
    | some r =>
      rw [hs] at h
      cases h
      exact ⟨0, rfl, hs, fun j' sec' hj _ => absurd hj (Nat.not_lt_zero j')⟩

theorem scanRowsBackward_eq_none {rows : List Row} :
    scanRowsBackward rows = none ↔
      ∀ r ∈ rows, FlattenInstructions r.instructions = [] := by
  induction rows with
  | nil => simp [scanRowsBackward]
  | cons row rest ih =>
    rw [scanRowsBackward]
    cases hs : scanRowsBackward rest with
    | none =>
      have hres : ∀ r ∈ rest, FlattenInstructions r.instructions = [] := ih.mp hs
      by_cases h : FlattenInstructions row.instructions = []
      · simp only [if_pos h]
        constructor
        · intro _ r hr
          rcases List.mem_cons.mp hr with rfl | hm
          · exact h
          · exact hres r hm
        · intro _
          trivial
      · simp only [if_neg h]
        constructor
        · intro hc
          cases hc
        · intro hall
          exact absurd (hall row (List.mem_cons_self row rest)) h
    | some r =>
      constructor
      · intro hc
        cases hc
      · intro hall
        have hn : scanRowsBackward rest = none :=
          ih.mpr fun r' hr' => hall r' (List.mem_cons_of_mem _ hr')
        rw [hn] at hs
        cases hs

theorem scanRowsBackward_eq_some {rows : List Row} {row : Row} {flat : List StitchPos}
    (h : scanRowsBackward rows = some (row, flat)) :
    flat = FlattenInstructions row.instructions ∧ flat ≠ [] ∧
      ∃ i, rows.get? i = some row ∧
        ∀ j r', i < j → rows.get? j = some r' →
          FlattenInstructions r'.instructions = [] := by
  induction rows with
  | nil => simp [scanRowsBackward] at h
  | cons r rest ih =>
    rw [scanRowsBackward] at h
    cases hs : scanRowsBackward rest with
    | some pr =>
      rw [hs] at h
      cases h
      obtain ⟨h1, h2, i, h3, h4⟩ := ih hs
      refine ⟨h1, h2, i + 1, h3, ?_⟩
      intro j r' hj hget
      cases j with
      | zero => omega
      | succ j' => exact h4 j' r' (Nat.lt_of_succ_lt_succ hj) hget
    | none =>
      rw [hs] at h
      by_cases he : FlattenInstructions r.instructions = []
      · rw [if_pos he] at h
        cases h
      · rw [if_neg he] at h
        cases h
        refine ⟨rfl, he, 0, rfl, ?_⟩
        intro j r' hj hget
        cases j with
        | zero => omega
        | succ j' =>
          exact scanRowsBackward_eq_none.mp hs r' (List.get?_mem hget)

theorem scanSectionsBackward_eq_none {sections : List PatternSection} :
    scanSectionsBackward sections = none ↔
      ∀ sec ∈ sections, scanRowsBackward sec.rows = none := by
  induction sections with
  | nil => simp [scanSectionsBackward]
  | cons sec rest ih =>
    rw [scanSectionsBackward]
    cases hs : scanSectionsBackward rest with
    | none =>
      have hres : ∀ s ∈ rest, scanRowsBackward s.rows = none := ih.mp hs
      cases hr : scanRowsBackward sec.rows with
      | none =>
        constructor
        · intro _ s hsm
          rcases List.mem_cons.mp hsm with rfl | hm
          · exact hr
          · exact hres s hm
        · intro _
          trivial
      | some r =>
        constructor
        · intro hc
          simp at hc
        · intro hall
          have := hall sec (List.mem_cons_self sec rest)
          rw [this] at hr
          cases hr
    | some r =>
      constructor
      · intro hc
        cases hc
      · intro hall
        have hn : scanSectionsBackward rest = none :=
          ih.mpr fun s hsm => hall s (List.mem_cons_of_mem _ hsm)
        rw [hn] at hs
        cases hs

theorem scanSectionsBackward_eq_some {sections : List PatternSection}
    {psec : PatternSection} {prow : Row} {pflat : List StitchPos}
    (h : scanSectionsBackward sections = some (psec, prow, pflat)) :
    ∃ j, sections.get? j = some psec ∧
      scanRowsBackward psec.rows = some (prow, pflat) ∧
      ∀ j' sec', j < j' → sections.get? j' = some sec' →
        scanRowsBackward sec'.rows = none := by
  induction sections with
  | nil => simp [scanSectionsBackward] at h
  | cons sec rest ih =>
    rw [scanSectionsBackward] at h
    cases hs : scanSectionsBackward rest with
    | some r =>
      rw [hs] at h
      cases h
      obtain ⟨j, h1, h2, h3⟩ := ih hs
      refine ⟨j + 1, h1, h2, ?_⟩
      intro j' sec' hj hget
      cases j' with
      | zero => omega
      | succ j'' => exact h3 j'' sec' (Nat.lt_of_succ_lt_succ hj) hget
    | none =>
      rw [hs] at h
      obtain ⟨⟨prow', pflat'⟩, hr, heq⟩ := Option.map_eq_some'.mp h
      cases heq
      refine ⟨0, rfl, hr, ?_⟩
      intro j' sec' hj hget
      cases j' with
      | zero => omega
      | succ j'' =>
        exact scanSectionsBackward_eq_none.mp hs sec' (List.get?_mem hget)

/-! ## Branch lemmas: the exact outcome of each Advance/Undo code path -/

theorem AdvanceProgress_completed {sections : List PatternSection} {st : EngineState}
    (hc : st.completed = true) : AdvanceProgress sections st = .ok (st, true) := by
  simp only [AdvanceProgress, hc, if_true]

theorem AdvanceProgress_within {sections : List PatternSection} {st : EngineState}
    {sec : PatternSection} {sIdx : Nat} {row : Row} {rIdx : Nat} {k : Nat}
    (hc : st.completed = false)
    (hsec : findSectionByID sections st.progress.sectionID = some (sec, sIdx))
    (hrow : findRowByID sec.rows st.progress.rowID = some (row, rIdx))
    (hk : findFlatIdx? (FlattenInstructions row.instructions) st.progress = some k)
    (hlt : k + 1 < (FlattenInstructions row.instructions).length) :
    AdvanceProgress sections st = .ok ({ st with progress :=
      { st.progress with
          instructionID :=
            ((FlattenInstructions row.instructions).getD (k + 1) default).instructionID,
          stitchIndex :=
            ((FlattenInstructions row.instructions).getD (k + 1) default).stitchIndex,
          groupRepeatIndex :=
            ((FlattenInstructions row.instructions).getD (k + 1) default).groupRepeatIndex,
          stitchesCompletedInRow := (k : Int) + 1 } }, false) := by
  have hlt' : ((k : Int) + 1) < ((FlattenInstructions row.instructions).length : Int) := by
    exact_mod_cast hlt
  have htn : (((k : Int) + 1)).toNat = k + 1 := by omega
  simp only [AdvanceProgress, hc, Bool.false_eq_true, if_false, hsec, hrow,
    FindFlatIndex, hk, if_pos hlt', htn]

theorem AdvanceProgress_missing {sections : List PatternSection} {st : EngineState}
    {sec : PatternSection} {sIdx : Nat} {row : Row} {rIdx : Nat}
    (hc : st.completed = false)
    (hsec : findSectionByID sections st.progress.sectionID = some (sec, sIdx))
    (hrow : findRowByID sec.rows st.progress.rowID = some (row, rIdx))
    (hk : findFlatIdx? (FlattenInstructions row.instructions) st.progress = none)
    (hne : FlattenInstructions row.instructions ≠ []) :
    AdvanceProgress sections st = .ok ({ st with progress :=
      { st.progress with
          instructionID :=
            ((FlattenInstructions row.instructions).getD 0 default).instructionID,
          stitchIndex :=
            ((FlattenInstructions row.instructions).getD 0 default).stitchIndex,
          groupRepeatIndex :=
            ((FlattenInstructions row.instructions).getD 0 default).groupRepeatIndex,
          stitchesCompletedInRow := 0 } }, false) := by
  have hpos : 0 < (FlattenInstructions row.instructions).length :=
    List.length_pos.mpr hne
  have hlt' : (0 : Int) < ((FlattenInstructions row.instructions).length : Int) := by
    omega
  have hz : (-1 : Int) + 1 = 0 := by omega
  have htn : ((0 : Int)).toNat = 0 := rfl
  simp only [AdvanceProgress, hc, Bool.false_eq_true, if_false, hsec, hrow,
    FindFlatIndex, hk, hz, if_pos hlt', htn]

theorem AdvanceProgress_nextRepeat {sections : List PatternSection} {st : EngineState}
    {sec : PatternSection} {sIdx : Nat} {row : Row} {rIdx : Nat} {k : Nat}
    (hc : st.completed = false)
    (hsec : findSectionByID sections st.progress.sectionID = some (sec, sIdx))
    (hrow : findRowByID sec.rows st.progress.rowID = some (row, rIdx))
    (hk : findFlatIdx? (FlattenInstructions row.instructions) st.progress = some k)
    (hlen : k + 1 = (FlattenInstructions row.instructions).length)
    (hrep : st.progress.rowRepeatIndex + 1 < row.repeatCount) :
    AdvanceProgress sections st = .ok ({ st with progress := (setToFirstStitch
      { st.progress with
          rowRepeatIndex := st.progress.rowRepeatIndex + 1,
          stitchesCompletedInRow := 0 }
      (FlattenInstructions row.instructions)) }, false) := by
  have hnlt : ¬ ((k : Int) + 1 < ((FlattenInstructions row.instructions).length : Int)) := by
    omega
  simp only [AdvanceProgress, hc, Bool.false_eq_true, if_false, hsec, hrow,
    FindFlatIndex, hk, if_neg hnlt, if_pos hrep]

theorem AdvanceProgress_nextRow {sections : List PatternSection} {st : EngineState}
    {sec : PatternSection} {sIdx : Nat} {row : Row} {rIdx : Nat} {k : Nat} {nextRow : Row}
    (hc : st.completed = false)
    (hsec : findSectionByID sections st.progress.sectionID = some (sec, sIdx))
    (hrow : findRowByID sec.rows st.progress.rowID = some (row, rIdx))
    (hk : findFlatIdx? (FlattenInstructions row.instructions) st.progress = some k)
    (hlen : k + 1 = (FlattenInstructions row.instructions).length)
    (hrep : ¬ (st.progress.rowRepeatIndex + 1 < row.repeatCount))
    (hget : sec.rows.get? (rIdx + 1) = some nextRow)
    (hne : FlattenInstructions nextRow.instructions ≠ []) :
    AdvanceProgress sections st = .ok ({ st with progress := (setToFirstStitch
      { st.progress with
          rowID := nextRow.id,
          rowRepeatIndex := 0,
          stitchesCompletedInRow := 0 }
      (FlattenInstructions nextRow.instructions)) }, false) := by
  have hnlt : ¬ ((k : Int) + 1 < ((FlattenInstructions row.instructions).length : Int)) := by
    omega
  simp only [AdvanceProgress, hc, Bool.false_eq_true, if_false, hsec, hrow,
    FindFlatIndex, hk, if_neg hnlt, if_neg hrep, hget, if_neg hne]

theorem AdvanceProgress_scanNoNextRow {sections : List PatternSection} {st : EngineState}
    {sec : PatternSection} {sIdx : Nat} {row : Row} {rIdx : Nat} {k : Nat}
    (hc : st.completed = false)
    (hsec : findSectionByID sections st.progress.sectionID = some (sec, sIdx))
    (hrow : findRowByID sec.rows st.progress.rowID = some (row, rIdx))
    (hk : findFlatIdx? (FlattenInstructions row.instructions) st.progress = some k)
    (hlen : k + 1 = (FlattenInstructions row.instructions).length)
    (hrep : ¬ (st.progress.rowRepeatIndex + 1 < row.repeatCount))
    (hget : sec.rows.get? (rIdx + 1) = none) :
    AdvanceProgress sections st =
      match scanSectionsForward (sections.drop (sIdx + 1)) with
      | some (nsec, nrow, nflat) =>
        .ok ({ st with progress := (setToFirstStitch
          { st.progress with
              sectionID := nsec.id,
              rowID := nrow.id,
              rowRepeatIndex := 0,
              stitchesCompletedInRow := 0 }
          nflat) }, false)
      | none => .ok ({ st with completed := true }, true) := by
  have hnlt : ¬ ((k : Int) + 1 < ((FlattenInstructions row.instructions).length : Int)) := by
    omega
  simp only [AdvanceProgress, hc, Bool.false_eq_true, if_false, hsec, hrow,
    FindFlatIndex, hk, if_neg hnlt, if_neg hrep, hget]

theorem AdvanceProgress_scanEmptyNextRow {sections : List PatternSection} {st : EngineState}
    {sec : PatternSection} {sIdx : Nat} {row : Row} {rIdx : Nat} {k : Nat} {nextRow : Row}
    (hc : st.completed = false)
    (hsec : findSectionByID sections st.progress.sectionID = some (sec, sIdx))
    (hrow : findRowByID sec.rows st.progress.rowID = some (row, rIdx))
    (hk : findFlatIdx? (FlattenInstructions row.instructions) st.progress = some k)
    (hlen : k + 1 = (FlattenInstructions row.instructions).length)
    (hrep : ¬ (st.progress.rowRepeatIndex + 1 < row.repeatCount))
    (hget : sec.rows.get? (rIdx + 1) = some nextRow)
    (hemp : FlattenInstructions nextRow.instructions = []) :
    AdvanceProgress sections st =
      match scanSectionsForward (sections.drop (sIdx + 1)) with
      | some (nsec, nrow, nflat) =>
        .ok ({ st with progress := (setToFirstStitch
          { st.progress with
              sectionID := nsec.id,
              rowID := nrow.id,
              rowRepeatIndex := 0,
              stitchesCompletedInRow := 0 }
          nflat) }, false)
      | none => .ok ({ st with completed := true }, true) := by
  have hnlt : ¬ ((k : Int) + 1 < ((FlattenInstructions row.instructions).length : Int)) := by
    omega
  simp only [AdvanceProgress, hc, Bool.false_eq_true, if_false, hsec, hrow,
    FindFlatIndex, hk, if_neg hnlt, if_neg hrep, hget, hemp, if_true]

theorem UndoProgress_within {sections : List PatternSection} {st : EngineState}
    {sec : PatternSection} {sIdx : Nat} {row : Row} {rIdx : Nat} {k : Nat}
    (hsec : findSectionByID sections st.progress.sectionID = some (sec, sIdx))
    (hrow : findRowByID sec.rows st.progress.rowID = some (row, rIdx))
    (hk : findFlatIdx? (FlattenInstructions row.instructions) st.progress = some k)
    (hpos : 0 < k) :
    UndoProgress sections st = .ok { completed := false, progress :=
      { st.progress with
          instructionID :=
            ((FlattenInstructions row.instructions).getD (k - 1) default).instructionID,
          stitchIndex :=
            ((FlattenInstructions row.instructions).getD (k - 1) default).stitchIndex,
          groupRepeatIndex :=
            ((FlattenInstructions row.instructions).getD (k - 1) default).groupRepeatIndex,
          stitchesCompletedInRow := (k : Int) - 1 } } := by
  have hpos' : (0 : Int) < (k : Int) := by exact_mod_cast hpos
  have htn : (((k : Int) - 1)).toNat = k - 1 := by omega
  simp only [UndoProgress, hsec, hrow, FindFlatIndex, hk, if_pos hpos', htn]

theorem UndoProgress_prevRepeat {sections : List PatternSection} {st : EngineState}
    {sec : PatternSection} {sIdx : Nat} {row : Row} {rIdx : Nat}
    (hsec : findSectionByID sections st.progress.sectionID = some (sec, sIdx))
    (hrow : findRowByID sec.rows st.progress.rowID = some (row, rIdx))
    (hk : findFlatIdx? (FlattenInstructions row.instructions) st.progress = some 0)
    (hrr : 0 < st.progress.rowRepeatIndex) :
    UndoProgress sections st = .ok { completed := false, progress := (setToLastStitch
      { st.progress with rowRepeatIndex := st.progress.rowRepeatIndex - 1 }
      (FlattenInstructions row.instructions)) } := by
  have hnpos : ¬ ((0 : Int) < ((0 : Nat) : Int)) := by omega
  simp only [UndoProgress, hsec, hrow, FindFlatIndex, hk, if_neg hnpos, if_pos hrr]

theorem UndoProgress_prevRow {sections : List PatternSection} {st : EngineState}
    {sec : PatternSection} {sIdx : Nat} {row : Row} {rIdx : Nat} {prevRow : Row}
    (hsec : findSectionByID sections st.progress.sectionID = some (sec, sIdx))
    (hrow : findRowByID sec.rows st.progress.rowID = some (row, rIdx))
    (hk : findFlatIdx? (FlattenInstructions row.instructions) st.progress = some 0)
    (hrr : ¬ (0 < st.progress.rowRepeatIndex))
    (hr0 : rIdx ≠ 0)
    (hget : sec.rows.get? (rIdx - 1) = some prevRow)
    (hne : FlattenInstructions prevRow.instructions ≠ []) :
    UndoProgress sections st = .ok { completed := false, progress := (setToLastStitch
      { st.progress with
          rowID := prevRow.id,
          rowRepeatIndex := prevRow.repeatCount - 1 }
      (FlattenInstructions prevRow.instructions)) } := by
  have hnpos : ¬ ((0 : Int) < ((0 : Nat) : Int)) := by omega
  have hgetD : sec.rows.getD (rIdx - 1) default = prevRow := by
    rw [List.getD_eq_getD_get?, hget]
    rfl
  simp only [UndoProgress, hsec, hrow, FindFlatIndex, hk, if_neg hnpos, if_neg hrr,
    if_neg hr0, hgetD, if_neg hne]

theorem UndoProgress_scanFirstRow {sections : List PatternSection} {st : EngineState}
    {sec : PatternSection} {sIdx : Nat} {row : Row}
    (hsec : findSectionByID sections st.progress.sectionID = some (sec, sIdx))
    (hrow : findRowByID sec.rows st.progress.rowID = some (row, 0))
    (hk : findFlatIdx? (FlattenInstructions row.instructions) st.progress = some 0)
    (hrr : ¬ (0 < st.progress.rowRepeatIndex)) :
    UndoProgress sections st =
      match scanSectionsBackward (sections.take sIdx) with
      | some (psec, prow, pflat) =>
        .ok { completed := false, progress := (setToLastStitch
          { st.progress with
              sectionID := psec.id,
              rowID := prow.id,
              rowRepeatIndex := prow.repeatCount - 1 }
          pflat) }
      | none => .ok st := by
  have hnpos : ¬ ((0 : Int) < ((0 : Nat) : Int)) := by omega
  simp only [UndoProgress, hsec, hrow, FindFlatIndex, hk, if_neg hnpos, if_neg hrr,
    if_true]

theorem UndoProgress_scanEmptyPrevRow {sections : List PatternSection} {st : EngineState}
    {sec : PatternSection} {sIdx : Nat} {row : Row} {rIdx : Nat} {prevRow : Row}
    (hsec : findSectionByID sections st.progress.sectionID = some (sec, sIdx))
    (hrow : findRowByID sec.rows st.progress.rowID = some (row, rIdx))
    (hk : findFlatIdx? (FlattenInstructions row.instructions) st.progress = some 0)
    (hrr : ¬ (0 < st.progress.rowRepeatIndex))
    (hr0 : rIdx ≠ 0)
    (hget : sec.rows.get? (rIdx - 1) = some prevRow)
    (hemp : FlattenInstructions prevRow.instructions = []) :
    UndoProgress sections st =
      match scanSectionsBackward (sections.take sIdx) with
      | some (psec, prow, pflat) =>
        .ok { completed := false, progress := (setToLastStitch
          { st.progress with
              sectionID := psec.id,
              rowID := prow.id,
              rowRepeatIndex := prow.repeatCount - 1 }
          pflat) }
      | none => .ok st := by
  have hnpos : ¬ ((0 : Int) < ((0 : Nat) : Int)) := by omega
  have hgetD : sec.rows.getD (rIdx - 1) default = prevRow := by
    rw [List.getD_eq_getD_get?, hget]
    rfl
  simp only [UndoProgress, hsec, hrow, FindFlatIndex, hk, if_neg hnpos, if_neg hrr,
    if_neg hr0, hgetD, hemp, if_true]

/-! ## Lemmas about the flattener -/

theorem FlattenInstructions_cons (x : RowInstruction) (xs : List RowInstruction) :
    FlattenInstructions (x :: xs) = FlattenInstructions [x] ++ FlattenInstructions xs := by
  simp [FlattenInstructions]

theorem FlattenInstructions_atomic {a : RowInstruction} (h : a.isGroup = false) :
    FlattenInstructions [a] =
      (List.range a.count.toNat).map fun si =>
        { instructionID := a.id, stitchIndex := (si : Int), groupRepeatIndex := 0 } := by
  simp only [FlattenInstructions, List.flatMap_cons, List.flatMap_nil, List.append_nil, h,
    Bool.false_eq_true, if_false]

theorem FlattenInstructions_group {g : RowInstruction} (h : g.isGroup = true) :
    FlattenInstructions [g] =
      (List.range g.groupRepeat.toNat).flatMap fun grp =>
        g.children.flatMap fun child =>
          (List.range child.count.toNat).map fun si =>
            { instructionID := child.id, stitchIndex := (si : Int),
              groupRepeatIndex := (grp : Int) } := by
  simp only [FlattenInstructions, List.flatMap_cons, List.flatMap_nil, List.append_nil, h,
    if_true]

theorem mem_FlattenInstructions_id {instructions : List RowInstruction} {pos : StitchPos}
    (h : pos ∈ FlattenInstructions instructions) :
    pos.instructionID ∈ allInstrIds instructions := by
  induction instructions with
  | nil => simp [FlattenInstructions] at h
  | cons ri rest ih =>
    rw [FlattenInstructions_cons] at h
    unfold allInstrIds
    rw [List.flatMap_cons]
    rcases List.mem_append.mp h with h1 | h2
    · refine List.mem_append.mpr (Or.inl ?_)
      by_cases hg : ri.isGroup = true
      · rw [FlattenInstructions_group hg] at h1
        simp only [List.mem_flatMap, List.mem_map, List.mem_range] at h1
        obtain ⟨grp, -, child, hchild, si, -, rfl⟩ := h1
        exact List.mem_cons_of_mem _ (List.mem_map_of_mem _ hchild)
      · rw [FlattenInstructions_atomic (by simpa using hg)] at h1
        simp only [List.mem_map, List.mem_range] at h1
        obtain ⟨si, -, rfl⟩ := h1
        exact List.mem_cons_self _ _
    · exact List.mem_append.mpr (Or.inr (ih h2))

theorem FlattenInstructions_single_nodup {ri : RowInstruction}
    (h : (ri.id :: ri.children.map RowInstruction.id).Nodup) :
    (FlattenInstructions [ri]).Nodup := by
  by_cases hg : ri.isGroup = true
  · rw [FlattenInstructions_group hg]
    rw [List.nodup_flatMap]
    constructor
    · intro grp _
      rw [List.nodup_flatMap]
      constructor
      · intro child _
        refine List.Nodup.map ?_ (List.nodup_range _)
        intro a b hab
        simpa using congrArg StitchPos.stitchIndex hab
      · have hch : ri.children.Pairwise fun a b => a.id ≠ b.id :=
          List.pairwise_map.mp (List.nodup_cons.mp h).2
        refine hch.imp ?_
        intro a b hab x hxa hxb
        simp only [Function.onFun, List.mem_map, List.mem_range] at hxa hxb
        obtain ⟨si, -, rfl⟩ := hxa
        obtain ⟨si', -, hx⟩ := hxb
        have hids : a.id = b.id := by
          have := congrArg StitchPos.instructionID hx
          simpa using this.symm
        exact hab hids
    · refine (List.nodup_range _).imp ?_
      intro a b hab x hxa hxb
      simp only [Function.onFun, List.mem_flatMap, List.mem_map, List.mem_range] at hxa hxb
      obtain ⟨child, -, si, -, rfl⟩ := hxa
      obtain ⟨child', -, si', -, hx⟩ := hxb
      have hgrp : ((a : Int)) = ((b : Int)) := by
        have := congrArg StitchPos.groupRepeatIndex hx
        simpa using this.symm
      exact hab (by exact_mod_cast hgrp)
  · rw [FlattenInstructions_atomic (by simpa using hg)]
    refine List.Nodup.map ?_ (List.nodup_range _)
    intro a b hab
    simpa using congrArg StitchPos.stitchIndex hab

theorem FlattenInstructions_nodup {instructions : List RowInstruction}
    (h : (allInstrIds instructions).Nodup) :
    (FlattenInstructions instructions).Nodup := by
  induction instructions with
  | nil => simp [FlattenInstructions]
  | cons ri rest ih =>
    rw [FlattenInstructions_cons]
    unfold allInstrIds at h
    rw [List.flatMap_cons] at h
    obtain ⟨h1, h2, hdisj⟩ := List.nodup_append.mp h
    refine List.Nodup.append (FlattenInstructions_single_nodup h1) (ih h2) ?_
    intro x hx1 hx2
    have e1 : x.instructionID ∈ allInstrIds [ri] := mem_FlattenInstructions_id hx1
    have e2 : x.instructionID ∈ allInstrIds rest := mem_FlattenInstructions_id hx2
    have e1' : x.instructionID ∈ ri.id :: ri.children.map RowInstruction.id := by
      simpa [allInstrIds] using e1
    exact hdisj e1' e2

/-! ## Claim theorems -/

/-- C5: `flatten` expands each group fully repeat-by-repeat, never
interleaved: lists flatten instruction by instruction; an atomic
instruction emits `count` units with `stitchIndex` 0..count-1 and
`groupRepeatIndex` 0; a group emits, for each `groupRepeatIndex`
0..groupRepeat-1, its children in order with `stitchIndex` 0..count-1;
and the group with repeat 2 and children `[sc×1, inc×1]` flattens to
`[sc(idx0,rep0), inc(idx0,rep0), sc(idx0,rep1), inc(idx0,rep1)]`. -/
theorem C5_flatten_group_expansion :
    (∀ (x : RowInstruction) (xs : List RowInstruction),
      FlattenInstructions (x :: xs) = FlattenInstructions [x] ++ FlattenInstructions xs) ∧
    (∀ a : RowInstruction, a.isGroup = false →
      FlattenInstructions [a] =
        (List.range a.count.toNat).map fun (si : Nat) =>
          { instructionID := a.id, stitchIndex := (si : Int), groupRepeatIndex := 0 }) ∧
    (∀ g : RowInstruction, g.isGroup = true →
      FlattenInstructions [g] =
        (List.range g.groupRepeat.toNat).flatMap fun (grp : Nat) =>
          g.children.flatMap fun child =>
            (List.range child.count.toNat).map fun (si : Nat) =>
              { instructionID := child.id, stitchIndex := (si : Int),
                groupRepeatIndex := (grp : Int) }) ∧
    FlattenInstructions [grpB] = [⟨3, 0, 0⟩, ⟨4, 0, 0⟩, ⟨3, 0, 1⟩, ⟨4, 0, 1⟩] :=
  ⟨FlattenInstructions_cons, fun _ h => FlattenInstructions_atomic h,
    fun _ h => FlattenInstructions_group h, rfl⟩

/-- Witness for C5: the atomic and group cases evaluated at the §8 demo
instructions. -/
theorem C5_flatten_group_expansion_witness :
    FlattenInstructions [grpB] = [⟨3, 0, 0⟩, ⟨4, 0, 0⟩, ⟨3, 0, 1⟩, ⟨4, 0, 1⟩] ∧
    FlattenInstructions [scA] = [⟨1, 0, 0⟩, ⟨1, 1, 0⟩, ⟨1, 2, 0⟩] := by
  constructor
  · exact C5_flatten_group_expansion.2.2.2
  · have h := C5_flatten_group_expansion.2.1 scA rfl
    rw [h]
    rfl

/-- C10: when all instruction identifiers (top-level and group children)
are pairwise distinct, the flattened output has no duplicate
(instructionId, stitchIndex, groupRepeatIndex) triple, and the index the
find loop locates for a cursor is the only matching index. -/
theorem C10_flatten_nodup {instructions : List RowInstruction}
    (h : (allInstrIds instructions).Nodup) :
    (FlattenInstructions instructions).Nodup ∧
    ∀ (p : WorkProgress) (i j : Nat),
      findFlatIdx? (FlattenInstructions instructions) p = some i →
      j < (FlattenInstructions instructions).length →
      matchesProgress ((FlattenInstructions instructions).getD j default) p →
      j = i := by
  have hnd := FlattenInstructions_nodup h
  refine ⟨hnd, ?_⟩
  intro p i j hfind hj hm
  have hofj := findFlatIdx?_of_getD hnd hj hm
  rw [hfind] at hofj
  exact (Option.some.inj hofj).symm

/-- Witness for C10: the §8 group row has distinct ids and a
duplicate-free flattening. -/
theorem C10_flatten_nodup_witness :
    (allInstrIds [grpB]).Nodup ∧ (FlattenInstructions [grpB]).Nodup :=
  ⟨by decide, (C10_flatten_nodup (by decide)).1⟩

/-- Counterexample to C1 as stated: on the §8 demo pattern, a cursor whose
instruction id 99 occurs nowhere in row A's flattened sequence makes
Advance return a *success* outcome that resets the cursor to the row's
first unit — not an IntegrityError. -/
theorem C1_counterexample :
    AdvanceProgress demoSections ⟨false, ⟨100, 10, 0, 99, 0, 0, 0⟩⟩ =
      .ok (⟨false, ⟨100, 10, 0, 1, 0, 0, 0⟩⟩, false) ∧
    findFlatIdx? (FlattenInstructions rowA.instructions) ⟨100, 10, 0, 99, 0, 0, 0⟩ = none :=
  ⟨rfl, rfl⟩

/-- C1 (amended): when the cursor's (instructionId, stitchIndex,
groupRepeatIndex) triple is not found in the current row's non-empty
flattened sequence (while section and row still exist), Advance does
*not* return an IntegrityError: `FindFlatIndex` yields -1 and the
`curIdx+1` step silently moves the cursor to the row's first stitch-unit
with `stitchesCompletedInRow = 0`, reporting success.  IntegrityError
outcomes arise only from a missing section or row. -/
theorem C1_missing_unit_resets {sections : List PatternSection} {st : EngineState}
    {sec : PatternSection} {sIdx : Nat} {row : Row} {rIdx : Nat}
    (hc : st.completed = false)
    (hsec : findSectionByID sections st.progress.sectionID = some (sec, sIdx))
    (hrow : findRowByID sec.rows st.progress.rowID = some (row, rIdx))
    (hk : findFlatIdx? (FlattenInstructions row.instructions) st.progress = none)
    (hne : FlattenInstructions row.instructions ≠ []) :
    AdvanceProgress sections st = .ok ({ st with progress :=
      { st.progress with
          instructionID :=
            ((FlattenInstructions row.instructions).getD 0 default).instructionID,
          stitchIndex :=
            ((FlattenInstructions row.instructions).getD 0 default).stitchIndex,
          groupRepeatIndex :=
            ((FlattenInstructions row.instructions).getD 0 default).groupRepeatIndex,
          stitchesCompletedInRow := 0 } }, false) :=
  AdvanceProgress_missing hc hsec hrow hk hne

/-- Witness for the amended C1 at the concrete demo input. -/
theorem C1_missing_unit_resets_witness :
    AdvanceProgress demoSections ⟨false, ⟨100, 10, 0, 99, 0, 0, 0⟩⟩ =
      .ok (⟨false, ⟨100, 10, 0, 1, 0, 0, 0⟩⟩, false) := by
  have h := @C1_missing_unit_resets demoSections ⟨false, ⟨100, 10, 0, 99, 0, 0, 0⟩⟩
    ⟨100, [rowA, rowB]⟩ 0 rowA 0 rfl rfl rfl rfl (by decide)
  rw [h]
  rfl

/-- Counterexample to C3 as stated: on the §8 scenario, after the 7th
Advance completes the session with the cursor frozen on the final `inc`
unit (id 4, groupRepeatIndex 1, stitchesCompletedInRow 3), a single Undo
does *not* return to that last stitch-unit: it steps back to the `sc`
unit of group repeat 1 (id 3) with `stitchesCompletedInRow = 2`. -/
theorem C3_counterexample :
    advanceTimes demoSections demoInit 7 = .ok ⟨true, ⟨100, 11, 0, 4, 0, 1, 3⟩⟩ ∧
    UndoProgress demoSections ⟨true, ⟨100, 11, 0, 4, 0, 1, 3⟩⟩ =
      .ok ⟨false, ⟨100, 11, 0, 3, 0, 1, 2⟩⟩ ∧
    (⟨100, 11, 0, 3, 0, 1, 2⟩ : WorkProgress) ≠ ⟨100, 11, 0, 4, 0, 1, 3⟩ :=
  ⟨rfl, rfl, by decide⟩

/-- C3 (amended): calling Undo once immediately after Advance has marked
the §8 demo session Completed clears the completed flag but moves the
cursor one unit *before* the frozen final position: to Row B's `sc` unit
of group repeat 1 with `stitchesCompletedInRow = 2` (the completion
freeze leaves the cursor on the last unit, so the undo steps past it). -/
theorem C3_undo_after_completion :
    (advanceTimes demoSections demoInit 7).bind (UndoProgress demoSections) =
      .ok ⟨false, ⟨100, 11, 0, 3, 0, 1, 2⟩⟩ :=
  rfl

/-- C6: when Advance exhausts the current row's last repeat and the single
immediately following row in the same section has an empty flattened
sequence, the outcome is determined entirely by scanning the sections
*after* the current one (`sections.drop (sIdx + 1)`): the engine never
examines any further row of the current section, even when later
non-empty rows remain there. -/
theorem C6_empty_next_row_skips_section {sections : List PatternSection}
    {st : EngineState} {sec : PatternSection} {sIdx : Nat} {row : Row} {rIdx : Nat}
    {k : Nat} {nextRow : Row}
    (hc : st.completed = false)
    (hsec : findSectionByID sections st.progress.sectionID = some (sec, sIdx))
    (hrow : findRowByID sec.rows st.progress.rowID = some (row, rIdx))
    (hk : findFlatIdx? (FlattenInstructions row.instructions) st.progress = some k)
    (hlen : k + 1 = (FlattenInstructions row.instructions).length)
    (hrep : ¬ (st.progress.rowRepeatIndex + 1 < row.repeatCount))
    (hget : sec.rows.get? (rIdx + 1) = some nextRow)
    (hemp : FlattenInstructions nextRow.instructions = []) :
    AdvanceProgress sections st =
      match scanSectionsForward (sections.drop (sIdx + 1)) with
      | some (nsec, nrow, nflat) =>
        .ok ({ st with progress := (setToFirstStitch
          { st.progress with
              sectionID := nsec.id,
              rowID := nrow.id,
              rowRepeatIndex := 0,
              stitchesCompletedInRow := 0 }
          nflat) }, false)
      | none => .ok ({ st with completed := true }, true) :=
  AdvanceProgress_scanEmptyNextRow hc hsec hrow hk hlen hrep hget hemp

/-- Witness for C6: on the gap pattern, advancing off row 1 (whose
successor row 2 is empty) jumps to section 2's row 4 although the
non-empty row 3 remains in section 1. -/
theorem C6_empty_next_row_skips_section_witness :
    AdvanceProgress gapSections gapStart = .ok (⟨false, ⟨2, 4, 0, 3, 0, 0, 0⟩⟩, false) := by
  have h := @C6_empty_next_row_skips_section gapSections gapStart gapSec1 0 gapRow1 0 0
    gapRow2 rfl rfl rfl rfl rfl (by decide) rfl rfl
  rw [h]
  rfl

/-- C7: initialization scans sections in order and rows in order, returns
the NoInstructions error (here `none`, creating no cursor) exactly when
every row of every section flattens to nothing, and otherwise produces
the cursor pointing at the first stitch-unit of the first row with a
non-empty flattened sequence, with `rowRepeatIndex = 0` and
`stitchesCompletedInRow = 0`. -/
theorem C7_init_first_nonempty (sections : List PatternSection) :
    (InitProgress sections = none ↔
      ∀ sec ∈ sections, ∀ r ∈ sec.rows, FlattenInstructions r.instructions = []) ∧
    (∀ p : WorkProgress, InitProgress sections = some p →
      ∃ sIdx sec rIdx row,
        sections.get? sIdx = some sec ∧ sec.rows.get? rIdx = some row ∧
        FlattenInstructions row.instructions ≠ [] ∧
        (∀ j sec', j < sIdx → sections.get? j = some sec' →
          ∀ r ∈ sec'.rows, FlattenInstructions r.instructions = []) ∧
        (∀ j r', j < rIdx → sec.rows.get? j = some r' →
          FlattenInstructions r'.instructions = []) ∧
        p = { sectionID := sec.id, rowID := row.id, rowRepeatIndex := 0,
              instructionID :=
                ((FlattenInstructions row.instructions).headD default).instructionID,
              stitchIndex :=
                ((FlattenInstructions row.instructions).headD default).stitchIndex,
              groupRepeatIndex :=
                ((FlattenInstructions row.instructions).headD default).groupRepeatIndex,
              stitchesCompletedInRow := 0 }) := by
  constructor
  · cases hs : scanSectionsForward sections with
    | none =>
      simp only [InitProgress, hs]
      constructor
      · intro _ sec hsec r hr
        exact scanRowsForward_eq_none.mp (scanSectionsForward_eq_none.mp hs sec hsec) r hr
      · intro _
        trivial
    | some t =>
      obtain ⟨nsec, nrow, nflat⟩ := t
      simp only [InitProgress, hs]
      constructor
      · intro hc
        cases hc
      · intro hall
        exfalso
        have hn : scanSectionsForward sections = none :=
          scanSectionsForward_eq_none.mpr
            fun sec hsec => scanRowsForward_eq_none.mpr (hall sec hsec)
        rw [hn] at hs
        cases hs
  · intro p hp
    cases hs : scanSectionsForward sections with
    | none =>
      rw [InitProgress, hs] at hp
      cases hp
    | some t =>
      obtain ⟨nsec, nrow, nflat⟩ := t
      rw [InitProgress, hs] at hp
      obtain ⟨j, hgetj, hrows, hskip⟩ := scanSectionsForward_eq_some hs
      obtain ⟨hfl, hne, i, hgeti, hrowskip⟩ := scanRowsForward_eq_some hrows
      refine ⟨j, nsec, i, nrow, hgetj, hgeti, ?_, ?_, hrowskip, ?_⟩
      · rw [← hfl]
        exact hne
      · intro j' sec' hj hget r hr
        exact scanRowsForward_eq_none.mp (hskip j' sec' hj hget) r hr
      · have hpx : p = _ := (Option.some.inj hp).symm
        rw [hpx, hfl]

/-- Witness for C7: a pattern whose single row is empty yields the
NoInstructions outcome. -/
theorem C7_init_first_nonempty_witness : InitProgress noUnitSections = none :=
  (C7_init_first_nonempty noUnitSections).1.mpr (by decide)

/-- C9: when Advance (called on a non-completed session) transitions the
session to Completed, the cursor record is not modified — every field
retains its last valid position. -/
theorem C9_completion_preserves_cursor {sections : List PatternSection}
    {st st' : EngineState}
    (hc : st.completed = false)
    (h : AdvanceProgress sections st = .ok (st', true)) :
    st'.progress = st.progress ∧ st'.completed = true := by
  simp only [AdvanceProgress, hc, Bool.false_eq_true, if_false] at h
  repeat' split at h
  all_goals simp at h
  all_goals
    first
      | (rw [← h]; exact ⟨rfl, rfl⟩)
      | (rename_i r heq
         split at heq
         · simp at heq
         · split at heq
           · simp at heq
           · rw [h] at heq
             simp at heq)

/-- Witness for C9 on the one-unit pattern: completing leaves the frozen
cursor equal to the pre-completion cursor. -/
theorem C9_completion_preserves_cursor_witness :
    (⟨true, soloStart.progress⟩ : EngineState).progress = soloStart.progress ∧
    (⟨true, soloStart.progress⟩ : EngineState).completed = true :=
  @C9_completion_preserves_cursor soloSections soloStart ⟨true, soloStart.progress⟩ rfl rfl

/-! ## Helper lemmas for the cursor-validity and counting arguments -/

theorem getD_of_get? {l : List StitchPos} {i : Nat} {a : StitchPos}
    (h : l.get? i = some a) : l.getD i default = a := by
  rw [List.getD_eq_getD_get?, h]
  rfl

theorem rowGetD_of_get? {l : List Row} {i : Nat} {a : Row}
    (h : l.get? i = some a) : l.getD i default = a := by
  rw [List.getD_eq_getD_get?, h]
  rfl

theorem getLast?_eq_some_getD {l : List StitchPos} (h : l ≠ []) :
    l.getLast? = some (l.getD (l.length - 1) default) := by
  have hpos : 0 < l.length := List.length_pos.mpr h
  have hlt : l.length - 1 < l.length := by omega
  rw [List.getLast?_eq_getElem?, List.getElem?_eq_getElem hlt,
    List.getD_eq_getElem _ _ hlt]

theorem setToFirstStitch_eq {p : WorkProgress} {flat : List StitchPos} (h : flat ≠ []) :
    setToFirstStitch p flat =
      { p with
          instructionID := (flat.getD 0 default).instructionID,
          stitchIndex := (flat.getD 0 default).stitchIndex,
          groupRepeatIndex := (flat.getD 0 default).groupRepeatIndex,
          stitchesCompletedInRow := 0 } := by
  cases flat with
  | nil => exact absurd rfl h
  | cons f rest => rfl

theorem setToLastStitch_eq {p : WorkProgress} {flat : List StitchPos} (h : flat ≠ []) :
    setToLastStitch p flat =
      { p with
          instructionID := (flat.getD (flat.length - 1) default).instructionID,
          stitchIndex := (flat.getD (flat.length - 1) default).stitchIndex,
          groupRepeatIndex := (flat.getD (flat.length - 1) default).groupRepeatIndex,
          stitchesCompletedInRow := (flat.length : Int) - 1 } := by
  rw [setToLastStitch, getLast?_eq_some_getD h]

theorem WFPattern.rowIdsNodup {sections : List PatternSection} {sIdx : Nat}
    {sec : PatternSection} (hwf : WFPattern sections)
    (hget : sections.get? sIdx = some sec) : (sec.rows.map Row.id).Nodup :=
  (hwf.2 sec (List.get?_mem hget)).1

theorem WFPattern.instrIdsNodup {sections : List PatternSection} {sIdx rIdx : Nat}
    {sec : PatternSection} {row : Row} (hwf : WFPattern sections)
    (hget : sections.get? sIdx = some sec) (hrget : sec.rows.get? rIdx = some row) :
    (allInstrIds row.instructions).Nodup :=
  ((hwf.2 sec (List.get?_mem hget)).2 row (List.get?_mem hrget)).2

theorem WFPattern.repeatPos {sections : List PatternSection} {sIdx rIdx : Nat}
    {sec : PatternSection} {row : Row} (hwf : WFPattern sections)
    (hget : sections.get? sIdx = some sec) (hrget : sec.rows.get? rIdx = some row) :
    1 ≤ row.repeatCount :=
  ((hwf.2 sec (List.get?_mem hget)).2 row (List.get?_mem hrget)).1

/-- A cursor sitting on index `i` of the flat list of a looked-up row is
invariant-valid provided the ids are unique. -/
theorem CursorInv.mk' {sections : List PatternSection} {p : WorkProgress}
    {sec : PatternSection} {sIdx : Nat} {row : Row} {rIdx : Nat} {i : Nat}
    (hwf : WFPattern sections)
    (hgets : sections.get? sIdx = some sec)
    (hgetr : sec.rows.get? rIdx = some row)
    (hsecid : p.sectionID = sec.id)
    (hrowid : p.rowID = row.id)
    (hi : i < (FlattenInstructions row.instructions).length)
    (hm : matchesProgress ((FlattenInstructions row.instructions).getD i default) p)
    (hsc : p.stitchesCompletedInRow = (i : Int)) :
    CursorInv sections p := by
  refine ⟨sec, sIdx, row, rIdx, i, ?_, ?_, ?_, hsc⟩
  · rw [hsecid]
    exact findSectionByID_of_get? hwf.1 hgets
  · rw [hrowid]
    exact findRowByID_of_get? (hwf.rowIdsNodup hgets) hgetr
  · exact findFlatIdx?_of_getD
      (FlattenInstructions_nodup (hwf.instrIdsNodup hgets hgetr)) hi hm

/-- A successful non-completing Advance preserves the cursor invariant. -/
theorem advance_preserves_inv {sections : List PatternSection} {st : EngineState}
    (hwf : WFPattern sections) (hinv : CursorInv sections st.progress)
    {st' : EngineState} (h : AdvanceProgress sections st = .ok (st', false)) :
    CursorInv sections st'.progress := by
  obtain ⟨sec, sIdx, row, rIdx, k, hsec, hrow, hk, hsc⟩ := hinv
  obtain ⟨hgets, hsecid⟩ := findSectionByID_some hsec
  obtain ⟨hgetr, hrowid⟩ := findRowByID_some hrow
  obtain ⟨hklen, hmatch⟩ := findFlatIdx?_some hk
  by_cases hcomp : st.completed
  · rw [AdvanceProgress_completed hcomp] at h
    simp at h
  have hc : st.completed = false := by simpa using hcomp
  by_cases hlt : k + 1 < (FlattenInstructions row.instructions).length
  · rw [AdvanceProgress_within hc hsec hrow hk hlt] at h
    simp only [Except.ok.injEq, Prod.mk.injEq, and_true] at h
    rw [← h]
    refine CursorInv.mk' hwf hgets hgetr hsecid.symm hrowid.symm hlt ⟨rfl, rfl, rfl⟩ ?_
    push_cast
    ring
  · have hlen : k + 1 = (FlattenInstructions row.instructions).length := by omega
    have hfne : FlattenInstructions row.instructions ≠ [] := by
      intro hc'
      rw [hc'] at hklen
      simp at hklen
    by_cases hrep : st.progress.rowRepeatIndex + 1 < row.repeatCount
    · rw [AdvanceProgress_nextRepeat hc hsec hrow hk hlen hrep] at h
      simp only [Except.ok.injEq, Prod.mk.injEq, and_true] at h
      rw [← h]
      have hzlt : 0 < (FlattenInstructions row.instructions).length := by omega
      rw [setToFirstStitch_eq hfne]
      exact CursorInv.mk' hwf hgets hgetr hsecid.symm hrowid.symm hzlt
        ⟨rfl, rfl, rfl⟩ (by simp)
    · cases hnext : sec.rows.get? (rIdx + 1) with
      | some nextRow =>
        by_cases hne2 : FlattenInstructions nextRow.instructions = []
        · rw [AdvanceProgress_scanEmptyNextRow hc hsec hrow hk hlen hrep hnext hne2] at h
          cases hscan : scanSectionsForward (sections.drop (sIdx + 1)) with
          | none =>
            rw [hscan] at h
            simp at h
          | some t =>
            obtain ⟨nsec, nrow, nflat⟩ := t
            rw [hscan] at h
            simp only [Except.ok.injEq, Prod.mk.injEq, and_true] at h
            rw [← h]
            obtain ⟨j, hgetj, hrows, -⟩ := scanSectionsForward_eq_some hscan
            obtain ⟨hfl, hne, i, hgeti, -⟩ := scanRowsForward_eq_some hrows
            subst hfl
            rw [List.get?_drop] at hgetj
            have hzlt : 0 < (FlattenInstructions nrow.instructions).length :=
              List.length_pos.mpr hne
            rw [setToFirstStitch_eq hne]
            exact CursorInv.mk' hwf hgetj hgeti rfl rfl hzlt ⟨rfl, rfl, rfl⟩ (by simp)
        · rw [AdvanceProgress_nextRow hc hsec hrow hk hlen hrep hnext hne2] at h
          simp only [Except.ok.injEq, Prod.mk.injEq, and_true] at h
          rw [← h]
          have hzlt : 0 < (FlattenInstructions nextRow.instructions).length :=
            List.length_pos.mpr hne2
          rw [setToFirstStitch_eq hne2]
          exact CursorInv.mk' hwf hgets hnext hsecid.symm rfl hzlt ⟨rfl, rfl, rfl⟩ (by simp)
      | none =>
        rw [AdvanceProgress_scanNoNextRow hc hsec hrow hk hlen hrep hnext] at h
        cases hscan : scanSectionsForward (sections.drop (sIdx + 1)) with
        | none =>
          rw [hscan] at h
          simp at h
        | some t =>
          obtain ⟨nsec, nrow, nflat⟩ := t
          rw [hscan] at h
          simp only [Except.ok.injEq, Prod.mk.injEq, and_true] at h
          rw [← h]
          obtain ⟨j, hgetj, hrows, -⟩ := scanSectionsForward_eq_some hscan
          obtain ⟨hfl, hne, i, hgeti, -⟩ := scanRowsForward_eq_some hrows
          subst hfl
          rw [List.get?_drop] at hgetj
          have hzlt : 0 < (FlattenInstructions nrow.instructions).length :=
            List.length_pos.mpr hne
          rw [setToFirstStitch_eq hne]
          exact CursorInv.mk' hwf hgetj hgeti rfl rfl hzlt ⟨rfl, rfl, rfl⟩ (by simp)

theorem take_get?_of_get? {l : List PatternSection} {n j : Nat} {a : PatternSection}
    (h : (l.take n).get? j = some a) : l.get? j = some a ∧ j < n := by
  have hj : j < (l.take n).length := by
    by_contra hc
    rw [List.get?_eq_none.mpr (by omega)] at h
    cases h
  rw [List.length_take] at hj
  have hjn : j < n := by omega
  rw [List.get?_take hjn] at h
  exact ⟨h, hjn⟩

/-- A successful Undo preserves the cursor invariant. -/
theorem undo_preserves_inv {sections : List PatternSection} {st : EngineState}
    (hwf : WFPattern sections) (hinv : CursorInv sections st.progress)
    {st' : EngineState} (h : UndoProgress sections st = .ok st') :
    CursorInv sections st'.progress := by
  obtain ⟨sec, sIdx, row, rIdx, k, hsec, hrow, hk, hsc⟩ := hinv
  obtain ⟨hgets, hsecid⟩ := findSectionByID_some hsec
  obtain ⟨hgetr, hrowid⟩ := findRowByID_some hrow
  obtain ⟨hklen, hmatch⟩ := findFlatIdx?_some hk
  by_cases hkpos : 0 < k
  · rw [UndoProgress_within hsec hrow hk hkpos] at h
    simp only [Except.ok.injEq] at h
    rw [← h]
    refine CursorInv.mk' hwf hgets hgetr hsecid.symm hrowid.symm (by omega)
      ⟨rfl, rfl, rfl⟩ ?_
    push_cast [Nat.cast_sub (by omega : 1 ≤ k)]
    ring
  · have hk0 : k = 0 := by omega
    subst hk0
    have hfne : FlattenInstructions row.instructions ≠ [] := by
      intro hc'
      rw [hc'] at hklen
      simp at hklen
    by_cases hrr : 0 < st.progress.rowRepeatIndex
    · rw [UndoProgress_prevRepeat hsec hrow hk hrr] at h
      simp only [Except.ok.injEq] at h
      rw [← h]
      rw [setToLastStitch_eq hfne]
      refine CursorInv.mk' hwf hgets hgetr hsecid.symm hrowid.symm (by omega)
        ⟨rfl, rfl, rfl⟩ ?_
      push_cast [Nat.cast_sub (by omega : 1 ≤ (FlattenInstructions row.instructions).length)]
      ring
    · by_cases hr0 : rIdx = 0
      · subst hr0
        rw [UndoProgress_scanFirstRow hsec hrow hk hrr] at h
        cases hscan : scanSectionsBackward (sections.take sIdx) with
        | none =>
          rw [hscan] at h
          simp only [Except.ok.injEq] at h
          rw [← h]
          exact ⟨sec, sIdx, row, 0, 0, hsec, hrow, hk, hsc⟩
        | some t =>
          obtain ⟨psec, prow, pflat⟩ := t
          rw [hscan] at h
          simp only [Except.ok.injEq] at h
          rw [← h]
          obtain ⟨j, hgetj, hrows, -⟩ := scanSectionsBackward_eq_some hscan
          obtain ⟨hgetj', hjlt⟩ := take_get?_of_get? hgetj
          obtain ⟨hfl, hne, i, hgeti, -⟩ := scanRowsBackward_eq_some hrows
          subst hfl
          rw [setToLastStitch_eq hne]
          refine CursorInv.mk' hwf hgetj' hgeti rfl rfl
            (by have := List.length_pos.mpr hne; omega) ⟨rfl, rfl, rfl⟩ ?_
          push_cast [Nat.cast_sub
            (by have := List.length_pos.mpr hne; omega :
              1 ≤ (FlattenInstructions prow.instructions).length)]
          ring
      · have hr1lt : rIdx - 1 < sec.rows.length := by
          have : rIdx < sec.rows.length := by
            by_contra hc'
            rw [List.get?_eq_none.mpr (by omega)] at hgetr
            cases hgetr
          omega
        obtain ⟨prevRow, hprev⟩ : ∃ r, sec.rows.get? (rIdx - 1) = some r := by
          cases hp : sec.rows.get? (rIdx - 1) with
          | none =>
            rw [List.get?_eq_none] at hp
            omega
          | some r => exact ⟨r, rfl⟩
        by_cases hpe : FlattenInstructions prevRow.instructions = []
        · rw [UndoProgress_scanEmptyPrevRow hsec hrow hk hrr hr0 hprev hpe] at h
          cases hscan : scanSectionsBackward (sections.take sIdx) with
          | none =>
            rw [hscan] at h
            simp only [Except.ok.injEq] at h
            rw [← h]
            exact ⟨sec, sIdx, row, rIdx, 0, hsec, hrow, hk, hsc⟩
          | some t =>
            obtain ⟨psec, prow, pflat⟩ := t
            rw [hscan] at h
            simp only [Except.ok.injEq] at h
            rw [← h]
            obtain ⟨j, hgetj, hrows, -⟩ := scanSectionsBackward_eq_some hscan
            obtain ⟨hgetj', hjlt⟩ := take_get?_of_get? hgetj
            obtain ⟨hfl, hne, i, hgeti, -⟩ := scanRowsBackward_eq_some hrows
            subst hfl
            rw [setToLastStitch_eq hne]
            refine CursorInv.mk' hwf hgetj' hgeti rfl rfl
              (by have := List.length_pos.mpr hne; omega) ⟨rfl, rfl, rfl⟩ ?_
            push_cast [Nat.cast_sub
              (by have := List.length_pos.mpr hne; omega :
                1 ≤ (FlattenInstructions prow.instructions).length)]
            ring
        · rw [UndoProgress_prevRow hsec hrow hk hrr hr0 hprev hpe] at h
          simp only [Except.ok.injEq] at h
          rw [← h]
          rw [setToLastStitch_eq hpe]
          refine CursorInv.mk' hwf hgets hprev hsecid.symm rfl
            (by have := List.length_pos.mpr hpe; omega) ⟨rfl, rfl, rfl⟩ ?_
          push_cast [Nat.cast_sub
            (by have := List.length_pos.mpr hpe; omega :
              1 ≤ (FlattenInstructions prevRow.instructions).length)]
          ring

/-- C8: after every successful Advance that reports non-completion and
every successful Undo that leaves the session non-completed, the cursor
invariant holds: the (instructionId, stitchIndex, groupRepeatIndex)
triple identifies an element of the current row's flattened sequence and
`stitchesCompletedInRow` equals that element's index — assuming the
invariant held before the call and the (well-formed) pattern tree is
unchanged. -/
theorem C8_cursor_invariant_preserved {sections : List PatternSection} {st : EngineState}
    (hwf : WFPattern sections) (hinv : CursorInv sections st.progress) :
    (∀ st', AdvanceProgress sections st = .ok (st', false) →
      CursorInv sections st'.progress) ∧
    (∀ st', UndoProgress sections st = .ok st' → st'.completed = false →
      CursorInv sections st'.progress) :=
  ⟨fun _ h => advance_preserves_inv hwf hinv h,
   fun _ h _ => undo_preserves_inv hwf hinv h⟩

/-- Witness for C8: advancing once on the §8 demo pattern yields a cursor
satisfying the invariant. -/
theorem C8_cursor_invariant_preserved_witness :
    CursorInv demoSections ⟨100, 10, 0, 1, 1, 0, 1⟩ := by
  have hwf : WFPattern demoSections := by
    unfold WFPattern allInstrIds
    decide
  have hinv : CursorInv demoSections demoInit.progress :=
    ⟨⟨100, [rowA, rowB]⟩, 0, rowA, 0, 0, rfl, rfl, rfl, rfl⟩
  exact (@C8_cursor_invariant_preserved demoSections demoInit hwf hinv).1
    ⟨false, ⟨100, 10, 0, 1, 1, 0, 1⟩⟩ rfl

/-! ## Scan lemmas used by the inverse-law and counting arguments -/

theorem scanSectionsForward_append (xs ys : List PatternSection) :
    scanSectionsForward (xs ++ ys) =
      match scanSectionsForward xs with
      | some r => some r
      | none => scanSectionsForward ys := by
  induction xs with
  | nil => simp [scanSectionsForward]
  | cons sec rest ih =>
    rw [List.cons_append, scanSectionsForward, scanSectionsForward]
    cases hs : scanRowsForward sec.rows with
    | some r => rfl
    | none => exact ih

theorem scanSectionsBackward_append (xs ys : List PatternSection) :
    scanSectionsBackward (xs ++ ys) =
      match scanSectionsBackward ys with
      | some r => some r
      | none => scanSectionsBackward xs := by
  induction xs with
  | nil =>
    cases hs : scanSectionsBackward ys with
    | some r => simp [hs]
    | none => simp [hs, scanSectionsBackward]
  | cons sec rest ih =>
    rw [List.cons_append, scanSectionsBackward, ih, scanSectionsBackward]
    cases hs : scanSectionsBackward ys with
    | some r => rfl
    | none =>
      cases hr : scanSectionsBackward rest with
      | some r => rfl
      | none => rfl

theorem scanRowsBackward_last {rows : List Row} {r : Row}
    (hall : ∀ r' ∈ rows, FlattenInstructions r'.instructions ≠ [])
    (hlast : rows.get? (rows.length - 1) = some r) :
    scanRowsBackward rows = some (r, FlattenInstructions r.instructions) := by
  induction rows with
  | nil => cases hlast
  | cons hd rest ih =>
    cases rest with
    | nil =>
      cases hlast
      rw [scanRowsBackward]
      simp only [scanRowsBackward]
      rw [if_neg (hall r (List.mem_cons_self r []))]
    | cons hd2 rest2 =>
      have hlast' : (hd2 :: rest2).get? ((hd2 :: rest2).length - 1) = some r := by
        simpa using hlast
      rw [scanRowsBackward,
        ih (fun r' hr' => hall r' (List.mem_cons_of_mem _ hr')) hlast']

theorem scanRowsForward_head {rows : List Row} {r : Row}
    (hhead : rows.get? 0 = some r)
    (hne : FlattenInstructions r.instructions ≠ []) :
    scanRowsForward rows = some (r, FlattenInstructions r.instructions) := by
  cases rows with
  | nil => cases hhead
  | cons hd rest =>
    cases hhead
    exact scanRowsForward_cons_of_ne hne

/-- Equality of cursors from equal bookkeeping fields and a common matched
stitch position. -/
theorem progress_eq_of_matches {p q : WorkProgress} {z : StitchPos}
    (h1 : p.sectionID = q.sectionID) (h2 : p.rowID = q.rowID)
    (h3 : p.rowRepeatIndex = q.rowRepeatIndex)
    (h4 : matchesProgress z p) (h5 : matchesProgress z q)
    (h6 : p.stitchesCompletedInRow = q.stitchesCompletedInRow) : p = q := by
  obtain ⟨a1, a2, a3⟩ := h4
  obtain ⟨b1, b2, b3⟩ := h5
  cases p
  cases q
  simp_all

theorem engine_eq {p'' : WorkProgress} {st : EngineState} (hc : st.completed = false)
    (hp : p'' = st.progress) : (⟨false, p''⟩ : EngineState) = st := by
  cases st
  simp_all

/-- On a well-formed pattern with no empty rows, Undo inverts every
non-completing Advance step. -/
theorem advance_then_undo {sections : List PatternSection} {st : EngineState}
    (hwf : WFPattern sections) (hner : NoEmptyRows sections)
    (hval : ValidCursor sections st.progress) (hc : st.completed = false)
    {st' : EngineState} (h : AdvanceProgress sections st = .ok (st', false)) :
    UndoProgress sections st' = .ok st := by
  obtain ⟨sec, sIdx, row, rIdx, k, hsec, hrow, hk, hsc, hrr0, hrrlt⟩ := hval
  obtain ⟨hgets, hsecid⟩ := findSectionByID_some hsec
  obtain ⟨hgetr, hrowid⟩ := findRowByID_some hrow
  obtain ⟨hklen, hmatch⟩ := findFlatIdx?_some hk
  have hnodup : (FlattenInstructions row.instructions).Nodup :=
    FlattenInstructions_nodup (hwf.instrIdsNodup hgets hgetr)
  have hfne : FlattenInstructions row.instructions ≠ [] := by
    intro hc'
    rw [hc'] at hklen
    simp at hklen
  by_cases hlt : k + 1 < (FlattenInstructions row.instructions).length
  · -- advance within the row
    rw [AdvanceProgress_within hc hsec hrow hk hlt] at h
    simp only [Except.ok.injEq, Prod.mk.injEq, and_true] at h
    have hsec2 : findSectionByID sections st'.progress.sectionID = some (sec, sIdx) := by
      rw [← h]
      exact hsec
    have hrow2 : findRowByID sec.rows st'.progress.rowID = some (row, rIdx) := by
      rw [← h]
      exact hrow
    have hk2 : findFlatIdx? (FlattenInstructions row.instructions) st'.progress =
        some (k + 1) := by
      rw [← h]
      exact findFlatIdx?_of_getD hnodup hlt ⟨rfl, rfl, rfl⟩
    refine (UndoProgress_within hsec2 hrow2 hk2 (Nat.succ_pos k)).trans ?_
    refine congrArg Except.ok (engine_eq hc ?_)
    rw [← h]
    refine progress_eq_of_matches
      (z := (FlattenInstructions row.instructions).getD k default)
      rfl rfl rfl ⟨rfl, rfl, rfl⟩ hmatch ?_
    show ((k : Int) + 1) - 1 = st.progress.stitchesCompletedInRow
    rw [hsc]
    ring
  · have hlen : k + 1 = (FlattenInstructions row.instructions).length := by omega
    by_cases hrep : st.progress.rowRepeatIndex + 1 < row.repeatCount
    · -- advance to next row repeat
      rw [AdvanceProgress_nextRepeat hc hsec hrow hk hlen hrep] at h
      simp only [Except.ok.injEq, Prod.mk.injEq, and_true] at h
      have hsec2 : findSectionByID sections st'.progress.sectionID = some (sec, sIdx) := by
        rw [← h, setToFirstStitch_eq hfne]
        exact hsec
      have hrow2 : findRowByID sec.rows st'.progress.rowID = some (row, rIdx) := by
        rw [← h, setToFirstStitch_eq hfne]
        exact hrow
      have hk2 : findFlatIdx? (FlattenInstructions row.instructions) st'.progress =
          some 0 := by
        rw [← h, setToFirstStitch_eq hfne]
        exact findFlatIdx?_of_getD hnodup (by omega) ⟨rfl, rfl, rfl⟩
      have hrr2 : 0 < st'.progress.rowRepeatIndex := by
        rw [← h, setToFirstStitch_eq hfne]
        exact (by omega : (0 : Int) < st.progress.rowRepeatIndex + 1)
      refine (UndoProgress_prevRepeat hsec2 hrow2 hk2 hrr2).trans ?_
      refine congrArg Except.ok (engine_eq hc ?_)
      rw [setToLastStitch_eq hfne, ← h, setToFirstStitch_eq hfne]
      have hidx : (FlattenInstructions row.instructions).length - 1 = k := by omega
      refine progress_eq_of_matches
        (z := (FlattenInstructions row.instructions).getD
          ((FlattenInstructions row.instructions).length - 1) default)
        rfl rfl ?_ ⟨rfl, rfl, rfl⟩ (by rw [hidx]; exact hmatch) ?_
      · show st.progress.rowRepeatIndex + 1 - 1 = st.progress.rowRepeatIndex
        ring
      · show ((FlattenInstructions row.instructions).length : Int) - 1 =
          st.progress.stitchesCompletedInRow
        rw [hsc]
        omega
    · cases hnext : sec.rows.get? (rIdx + 1) with
      | some nextRow =>
        -- advance to the next row of the section
        have hsecmem : sec ∈ sections := List.get?_mem hgets
        have hne2 : FlattenInstructions nextRow.instructions ≠ [] :=
          hner sec hsecmem nextRow (List.get?_mem hnext)
        have hnodup2 : (FlattenInstructions nextRow.instructions).Nodup :=
          FlattenInstructions_nodup (hwf.instrIdsNodup hgets hnext)
        rw [AdvanceProgress_nextRow hc hsec hrow hk hlen hrep hnext hne2] at h
        simp only [Except.ok.injEq, Prod.mk.injEq, and_true] at h
        have hsec2 : findSectionByID sections st'.progress.sectionID = some (sec, sIdx) := by
          rw [← h, setToFirstStitch_eq hne2]
          exact hsec
        have hrow2 : findRowByID sec.rows st'.progress.rowID = some (nextRow, rIdx + 1) := by
          rw [← h, setToFirstStitch_eq hne2]
          exact findRowByID_of_get? (hwf.rowIdsNodup hgets) hnext
        have hk2 : findFlatIdx? (FlattenInstructions nextRow.instructions) st'.progress =
            some 0 := by
          rw [← h, setToFirstStitch_eq hne2]
          exact findFlatIdx?_of_getD hnodup2 (List.length_pos.mpr hne2) ⟨rfl, rfl, rfl⟩
        have hrr2 : ¬ (0 < st'.progress.rowRepeatIndex) := by
          rw [← h, setToFirstStitch_eq hne2]
          exact (by omega : ¬ ((0 : Int) < 0))
        refine (UndoProgress_prevRow hsec2 hrow2 hk2 hrr2 (Nat.succ_ne_zero rIdx)
          hgetr hfne).trans ?_
        refine congrArg Except.ok (engine_eq hc ?_)
        rw [setToLastStitch_eq hfne, ← h, setToFirstStitch_eq hne2]
        have hidx : (FlattenInstructions row.instructions).length - 1 = k := by omega
        refine progress_eq_of_matches
          (z := (FlattenInstructions row.instructions).getD
            ((FlattenInstructions row.instructions).length - 1) default)
          rfl hrowid ?_ ⟨rfl, rfl, rfl⟩ (by rw [hidx]; exact hmatch) ?_
        · show row.repeatCount - 1 = st.progress.rowRepeatIndex
          omega
        · show ((FlattenInstructions row.instructions).length : Int) - 1 =
            st.progress.stitchesCompletedInRow
          rw [hsc]
          omega
      | none =>
        -- advance across the section boundary
        rw [AdvanceProgress_scanNoNextRow hc hsec hrow hk hlen hrep hnext] at h
        cases hscan : scanSectionsForward (sections.drop (sIdx + 1)) with
        | none =>
          rw [hscan] at h
          simp at h
        | some t =>
          obtain ⟨nsec, nrow, nflat⟩ := t
          rw [hscan] at h
          simp only [Except.ok.injEq, Prod.mk.injEq, and_true] at h
          obtain ⟨j, hgetj, hrows, hskip⟩ := scanSectionsForward_eq_some hscan
          rw [List.get?_drop] at hgetj
          obtain ⟨hfl, hnefl, i, hgeti, hrowskip⟩ := scanRowsForward_eq_some hrows
          subst hfl
          have hi0 : i = 0 := by
            by_contra hne0
            have h0lt : 0 < i := Nat.pos_of_ne_zero hne0
            obtain ⟨r0, hr0⟩ : ∃ r0, nsec.rows.get? 0 = some r0 := by
              cases hx : nsec.rows.get? 0 with
              | none =>
                rw [List.get?_eq_none] at hx
                have hilen : i < nsec.rows.length := by
                  by_contra hc'
                  rw [List.get?_eq_none.mpr (by omega)] at hgeti
                  cases hgeti
                omega
              | some r0 => exact ⟨r0, rfl⟩
            exact hner nsec (List.get?_mem hgetj) r0 (List.get?_mem hr0)
              (hrowskip 0 r0 h0lt hr0)
          subst hi0
          have hnodup2 : (FlattenInstructions nrow.instructions).Nodup :=
            FlattenInstructions_nodup (hwf.instrIdsNodup hgetj hgeti)
          have hsec2 : findSectionByID sections st'.progress.sectionID =
              some (nsec, sIdx + 1 + j) := by
            rw [← h, setToFirstStitch_eq hnefl]
            exact findSectionByID_of_get? hwf.1 hgetj
          have hrow2 : findRowByID nsec.rows st'.progress.rowID = some (nrow, 0) := by
            rw [← h, setToFirstStitch_eq hnefl]
            exact findRowByID_of_get? (hwf.rowIdsNodup hgetj) hgeti
          have hk2 : findFlatIdx? (FlattenInstructions nrow.instructions) st'.progress =
              some 0 := by
            rw [← h, setToFirstStitch_eq hnefl]
            exact findFlatIdx?_of_getD hnodup2 (List.length_pos.mpr hnefl) ⟨rfl, rfl, rfl⟩
          have hrr2 : ¬ (0 < st'.progress.rowRepeatIndex) := by
            rw [← h, setToFirstStitch_eq hnefl]
            exact (by omega : ¬ ((0 : Int) < 0))
          refine (UndoProgress_scanFirstRow hsec2 hrow2 hk2 hrr2).trans ?_
          have hrlast : rIdx = sec.rows.length - 1 := by
            have h1 : rIdx < sec.rows.length := by
              by_contra hc'
              rw [List.get?_eq_none.mpr (by omega)] at hgetr
              cases hgetr
            have h2 : sec.rows.length ≤ rIdx + 1 := by
              rw [List.get?_eq_none] at hnext
              omega
            omega
          have hback : scanSectionsBackward (sections.take (sIdx + 1 + j)) =
              some (sec, row, FlattenInstructions row.instructions) := by
            rw [List.take_add, scanSectionsBackward_append]
            have hmid : scanSectionsBackward ((sections.drop (sIdx + 1)).take j) = none := by
              refine scanSectionsBackward_eq_none.mpr ?_
              intro sec' hmem
              obtain ⟨j', hj'⟩ := List.mem_iff_get?.mp hmem
              obtain ⟨hj'', hjlt⟩ := take_get?_of_get? hj'
              exact scanRowsBackward_eq_none.mpr
                (scanRowsForward_eq_none.mp (hskip j' sec' hjlt hj''))
            rw [hmid]
            have htake : sections.take (sIdx + 1) = sections.take sIdx ++ [sec] := by
              rw [List.take_succ]
              have hgetE : sections[sIdx]? = some sec := by
                rw [← List.get?_eq_getElem?]
                exact hgets
              rw [hgetE]
              rfl
            rw [htake, scanSectionsBackward_append]
            have hrowsback : scanRowsBackward sec.rows =
                some (row, FlattenInstructions row.instructions) := by
              refine scanRowsBackward_last
                (fun r' hr' => hner sec (List.get?_mem hgets) r' hr') ?_
              rw [← hrlast]
              exact hgetr
            have hsingle : scanSectionsBackward [sec] =
                some (sec, row, FlattenInstructions row.instructions) := by
              rw [scanSectionsBackward]
              simp only [scanSectionsBackward]
              rw [hrowsback]
              rfl
            rw [hsingle]
          rw [hback]
          refine congrArg Except.ok (engine_eq hc ?_)
          rw [setToLastStitch_eq hfne, ← h, setToFirstStitch_eq hnefl]
          have hidx : (FlattenInstructions row.instructions).length - 1 = k := by omega
          refine progress_eq_of_matches
            (z := (FlattenInstructions row.instructions).getD
              ((FlattenInstructions row.instructions).length - 1) default)
            hsecid hrowid ?_ ⟨rfl, rfl, rfl⟩ (by rw [hidx]; exact hmatch) ?_
          · show row.repeatCount - 1 = st.progress.rowRepeatIndex
            omega
          · show ((FlattenInstructions row.instructions).length : Int) - 1 =
              st.progress.stitchesCompletedInRow
            rw [hsc]
            omega

theorem engine_eq' {p'' : WorkProgress} {st' st : EngineState}
    (hcc : st'.completed = st.completed) (hp : p'' = st.progress) :
    ({ st' with progress := p'' } : EngineState) = st := by
  cases st
  cases st'
  simp_all

/-- On a well-formed pattern with no empty rows, Advance inverts every
non-no-op Undo step. -/
theorem undo_then_advance {sections : List PatternSection} {st : EngineState}
    (hwf : WFPattern sections) (hner : NoEmptyRows sections)
    (hval : ValidCursor sections st.progress) (hc : st.completed = false)
    {st' : EngineState} (h : UndoProgress sections st = .ok st') (hnoop : st' ≠ st) :
    AdvanceProgress sections st' = .ok (st, false) := by
  obtain ⟨sec, sIdx, row, rIdx, k, hsec, hrow, hk, hsc, hrr0, hrrlt⟩ := hval
  obtain ⟨hgets, hsecid⟩ := findSectionByID_some hsec
  obtain ⟨hgetr, hrowid⟩ := findRowByID_some hrow
  obtain ⟨hklen, hmatch⟩ := findFlatIdx?_some hk
  have hnodup : (FlattenInstructions row.instructions).Nodup :=
    FlattenInstructions_nodup (hwf.instrIdsNodup hgets hgetr)
  have hfne : FlattenInstructions row.instructions ≠ [] := by
    intro hc'
    rw [hc'] at hklen
    simp at hklen
  by_cases hkpos : 0 < k
  · -- undo within the row
    rw [UndoProgress_within hsec hrow hk hkpos] at h
    simp only [Except.ok.injEq] at h
    have hc2 : st'.completed = false := by
      rw [← h]
    have hsec2 : findSectionByID sections st'.progress.sectionID = some (sec, sIdx) := by
      rw [← h]
      exact hsec
    have hrow2 : findRowByID sec.rows st'.progress.rowID = some (row, rIdx) := by
      rw [← h]
      exact hrow
    have hk2 : findFlatIdx? (FlattenInstructions row.instructions) st'.progress =
        some (k - 1) := by
      rw [← h]
      exact findFlatIdx?_of_getD hnodup (by omega) ⟨rfl, rfl, rfl⟩
    refine (AdvanceProgress_within hc2 hsec2 hrow2 hk2 (by omega)).trans ?_
    refine congrArg (fun x => Except.ok (x, false)) (engine_eq' ?_ ?_)
    · rw [← h]
      exact hc.symm
    · rw [← h]
      have hidx : k - 1 + 1 = k := by omega
      rw [hidx]
      refine progress_eq_of_matches
        (z := (FlattenInstructions row.instructions).getD k default)
        rfl rfl rfl ⟨rfl, rfl, rfl⟩ hmatch ?_
      show ((k - 1 : Nat) : Int) + 1 = st.progress.stitchesCompletedInRow
      rw [hsc]
      omega
  · have hk0 : k = 0 := by omega
    subst hk0
    by_cases hrr : 0 < st.progress.rowRepeatIndex
    · -- undo to previous row repeat
      rw [UndoProgress_prevRepeat hsec hrow hk hrr] at h
      simp only [Except.ok.injEq] at h
      have hc2 : st'.completed = false := by
        rw [← h]
      have hsec2 : findSectionByID sections st'.progress.sectionID = some (sec, sIdx) := by
        rw [← h, setToLastStitch_eq hfne]
        exact hsec
      have hrow2 : findRowByID sec.rows st'.progress.rowID = some (row, rIdx) := by
        rw [← h, setToLastStitch_eq hfne]
        exact hrow
      have hk2 : findFlatIdx? (FlattenInstructions row.instructions) st'.progress =
          some ((FlattenInstructions row.instructions).length - 1) := by
        rw [← h, setToLastStitch_eq hfne]
        exact findFlatIdx?_of_getD hnodup (by omega) ⟨rfl, rfl, rfl⟩
      have hrep2 : st'.progress.rowRepeatIndex + 1 < row.repeatCount := by
        rw [← h, setToLastStitch_eq hfne]
        exact (by omega : st.progress.rowRepeatIndex - 1 + 1 < row.repeatCount)
      refine (AdvanceProgress_nextRepeat hc2 hsec2 hrow2 hk2 (by omega) hrep2).trans ?_
      refine congrArg (fun x => Except.ok (x, false)) (engine_eq' ?_ ?_)
      · rw [← h]
        exact hc.symm
      · rw [setToFirstStitch_eq hfne, ← h, setToLastStitch_eq hfne]
        refine progress_eq_of_matches
          (z := (FlattenInstructions row.instructions).getD 0 default)
          rfl rfl ?_ ⟨rfl, rfl, rfl⟩ hmatch ?_
        · show st.progress.rowRepeatIndex - 1 + 1 = st.progress.rowRepeatIndex
          ring
        · show (0 : Int) = st.progress.stitchesCompletedInRow
          rw [hsc]
          simp
    · by_cases hr0 : rIdx = 0
      · -- undo across the section boundary
        subst hr0
        rw [UndoProgress_scanFirstRow hsec hrow hk hrr] at h
        cases hscan : scanSectionsBackward (sections.take sIdx) with
        | none =>
          rw [hscan] at h
          simp only [Except.ok.injEq] at h
          exact absurd h.symm hnoop
        | some t =>
          obtain ⟨psec, prow, pflat⟩ := t
          rw [hscan] at h
          simp only [Except.ok.injEq] at h
          obtain ⟨j, hgetjTake, hrows, hafter⟩ := scanSectionsBackward_eq_some hscan
          obtain ⟨hgetj, hjlt⟩ := take_get?_of_get? hgetjTake
          obtain ⟨hfl, hnefl, i, hgeti, hiafter⟩ := scanRowsBackward_eq_some hrows
          subst hfl
          have hnodup2 : (FlattenInstructions prow.instructions).Nodup :=
            FlattenInstructions_nodup (hwf.instrIdsNodup hgetj hgeti)
          have hnexti : psec.rows.get? (i + 1) = none := by
            cases hx : psec.rows.get? (i + 1) with
            | some r' =>
              exact absurd (hiafter (i + 1) r' (by omega) hx)
                (hner psec (List.get?_mem hgetj) r' (List.get?_mem hx))
            | none => rfl
          have hc2 : st'.completed = false := by
            rw [← h]
          have hsec2 : findSectionByID sections st'.progress.sectionID =
              some (psec, j) := by
            rw [← h, setToLastStitch_eq hnefl]
            exact findSectionByID_of_get? hwf.1 hgetj
          have hrow2 : findRowByID psec.rows st'.progress.rowID = some (prow, i) := by
            rw [← h, setToLastStitch_eq hnefl]
            exact findRowByID_of_get? (hwf.rowIdsNodup hgetj) hgeti
          have hk2 : findFlatIdx? (FlattenInstructions prow.instructions) st'.progress =
              some ((FlattenInstructions prow.instructions).length - 1) := by
            rw [← h, setToLastStitch_eq hnefl]
            exact findFlatIdx?_of_getD hnodup2
              (by have := List.length_pos.mpr hnefl; omega) ⟨rfl, rfl, rfl⟩
          have hrep2 : ¬ (st'.progress.rowRepeatIndex + 1 < prow.repeatCount) := by
            rw [← h, setToLastStitch_eq hnefl]
            exact (by omega : ¬ (prow.repeatCount - 1 + 1 < prow.repeatCount))
          refine (AdvanceProgress_scanNoNextRow hc2 hsec2 hrow2 hk2
            (by have := List.length_pos.mpr hnefl; omega) hrep2 hnexti).trans ?_
          have hslt : sIdx < sections.length := by
            by_contra hc'
            rw [List.get?_eq_none.mpr (by omega)] at hgets
            cases hgets
          have hfwd : scanSectionsForward (sections.drop (j + 1)) =
              some (sec, row, FlattenInstructions row.instructions) := by
            have hlen_take : (sections.take sIdx).length = sIdx := by
              rw [List.length_take]
              omega
            have hdecomp : sections.drop (j + 1) =
                (sections.take sIdx).drop (j + 1) ++ sections.drop sIdx := by
              conv_lhs => rw [← List.take_append_drop sIdx sections]
              rw [List.drop_append_of_le_length (by omega)]
            rw [hdecomp, scanSectionsForward_append]
            have hmid : scanSectionsForward ((sections.take sIdx).drop (j + 1)) = none := by
              refine scanSectionsForward_eq_none.mpr ?_
              intro sec' hmem
              obtain ⟨j', hj'⟩ := List.mem_iff_get?.mp hmem
              rw [List.get?_drop] at hj'
              have hnone := hafter (j + 1 + j') sec' (by omega) hj'
              exact scanRowsForward_eq_none.mpr (scanRowsBackward_eq_none.mp hnone)
            rw [hmid]
            have hgetE : sections[sIdx]? = some sec := by
              rw [← List.get?_eq_getElem?]
              exact hgets
            obtain ⟨hh, heq⟩ := List.getElem?_eq_some.mp hgetE
            have hdrop : sections.drop sIdx = sec :: sections.drop (sIdx + 1) := by
              rw [List.drop_eq_getElem_cons hslt, heq]
            rw [hdrop, scanSectionsForward,
              scanRowsForward_head hgetr hfne]
          rw [hfwd]
          refine congrArg (fun x => Except.ok (x, false)) (engine_eq' ?_ ?_)
          · rw [← h]
            exact hc.symm
          · rw [setToFirstStitch_eq hfne, ← h, setToLastStitch_eq hnefl]
            refine progress_eq_of_matches
              (z := (FlattenInstructions row.instructions).getD 0 default)
              hsecid hrowid ?_ ⟨rfl, rfl, rfl⟩ hmatch ?_
            · show (0 : Int) = st.progress.rowRepeatIndex
              omega
            · show (0 : Int) = st.progress.stitchesCompletedInRow
              rw [hsc]
              simp
      · -- undo to the previous row of the section
        have hr1lt : rIdx - 1 < sec.rows.length := by
          have hlt' : rIdx < sec.rows.length := by
            by_contra hc'
            rw [List.get?_eq_none.mpr (by omega)] at hgetr
            cases hgetr
          omega
        obtain ⟨prevRow, hprev⟩ : ∃ r, sec.rows.get? (rIdx - 1) = some r := by
          cases hp : sec.rows.get? (rIdx - 1) with
          | none =>
            rw [List.get?_eq_none] at hp
            omega
          | some r => exact ⟨r, rfl⟩
        have hpe : FlattenInstructions prevRow.instructions ≠ [] :=
          hner sec (List.get?_mem hgets) prevRow (List.get?_mem hprev)
        have hnodup2 : (FlattenInstructions prevRow.instructions).Nodup :=
          FlattenInstructions_nodup (hwf.instrIdsNodup hgets hprev)
        rw [UndoProgress_prevRow hsec hrow hk hrr hr0 hprev hpe] at h
        simp only [Except.ok.injEq] at h
        have hc2 : st'.completed = false := by
          rw [← h]
        have hsec2 : findSectionByID sections st'.progress.sectionID = some (sec, sIdx) := by
          rw [← h, setToLastStitch_eq hpe]
          exact hsec
        have hrow2 : findRowByID sec.rows st'.progress.rowID = some (prevRow, rIdx - 1) := by
          rw [← h, setToLastStitch_eq hpe]
          exact findRowByID_of_get? (hwf.rowIdsNodup hgets) hprev
        have hk2 : findFlatIdx? (FlattenInstructions prevRow.instructions) st'.progress =
            some ((FlattenInstructions prevRow.instructions).length - 1) := by
          rw [← h, setToLastStitch_eq hpe]
          exact findFlatIdx?_of_getD hnodup2
            (by have := List.length_pos.mpr hpe; omega) ⟨rfl, rfl, rfl⟩
        have hrep2 : ¬ (st'.progress.rowRepeatIndex + 1 < prevRow.repeatCount) := by
          rw [← h, setToLastStitch_eq hpe]
          exact (by omega : ¬ (prevRow.repeatCount - 1 + 1 < prevRow.repeatCount))
        have hnext2 : sec.rows.get? (rIdx - 1 + 1) = some row := by
          rw [show rIdx - 1 + 1 = rIdx by omega]
          exact hgetr
        refine (AdvanceProgress_nextRow hc2 hsec2 hrow2 hk2
          (by have := List.length_pos.mpr hpe; omega) hrep2 hnext2 hfne).trans ?_
        refine congrArg (fun x => Except.ok (x, false)) (engine_eq' ?_ ?_)
        · rw [← h]
          exact hc.symm
        · rw [setToFirstStitch_eq hfne, ← h, setToLastStitch_eq hpe]
          refine progress_eq_of_matches
            (z := (FlattenInstructions row.instructions).getD 0 default)
            rfl hrowid ?_ ⟨rfl, rfl, rfl⟩ hmatch ?_
          · show (0 : Int) = st.progress.rowRepeatIndex
            omega
          · show (0 : Int) = st.progress.stitchesCompletedInRow
            rw [hsc]
            simp

/-- Counterexample to C2 as stated: on the gap pattern, the initial cursor
(a reachable, non-terminal cursor) advances from row 1 across the empty
row 2 into section 2; undoing from there lands on section 1's row 3, not
back on row 1 — `Undo(Advance(c)) ≠ c`. -/
theorem C2_counterexample :
    InitProgress gapSections = some gapStart.progress ∧
    AdvanceProgress gapSections gapStart = .ok (⟨false, ⟨2, 4, 0, 3, 0, 0, 0⟩⟩, false) ∧
    UndoProgress gapSections ⟨false, ⟨2, 4, 0, 3, 0, 0, 0⟩⟩ =
      .ok ⟨false, ⟨1, 3, 0, 2, 0, 0, 0⟩⟩ ∧
    (⟨false, ⟨1, 3, 0, 2, 0, 0, 0⟩⟩ : EngineState) ≠ gapStart :=
  ⟨rfl, rfl, rfl, by decide⟩

/-- C2 (amended): on a well-formed pattern tree in which every row's
flattened sequence is non-empty, for every valid non-terminal cursor
`c`, `Undo(Advance(c)) = c`; and `Advance(Undo(c)) = c` whenever Undo
actually moves (Undo is a no-op exactly at the very first stitch-unit of
the whole pattern, breaking strict inversion only at that boundary). -/
theorem C2_advance_undo_inverse {sections : List PatternSection} {st : EngineState}
    (hwf : WFPattern sections) (hner : NoEmptyRows sections)
    (hval : ValidCursor sections st.progress) (hc : st.completed = false) :
    (∀ st', AdvanceProgress sections st = .ok (st', false) →
      UndoProgress sections st' = .ok st) ∧
    (∀ st', UndoProgress sections st = .ok st' → st' ≠ st →
      AdvanceProgress sections st' = .ok (st, false)) :=
  ⟨fun _ h => advance_then_undo hwf hner hval hc h,
   fun _ h hne => undo_then_advance hwf hner hval hc h hne⟩

/-- Witness for the amended C2 on the §8 demo pattern: undoing the first
advance returns exactly to the initial state. -/
theorem C2_advance_undo_inverse_witness :
    UndoProgress demoSections ⟨false, ⟨100, 10, 0, 1, 1, 0, 1⟩⟩ = .ok demoInit := by
  have hwf : WFPattern demoSections := by
    unfold WFPattern allInstrIds
    decide
  have hner : NoEmptyRows demoSections := by
    unfold NoEmptyRows
    decide
  have hval : ValidCursor demoSections demoInit.progress :=
    ⟨⟨100, [rowA, rowB]⟩, 0, rowA, 0, 0, rfl, rfl, rfl, rfl, by decide, by decide⟩
  exact (@C2_advance_undo_inverse demoSections demoInit hwf hner hval rfl).1
    ⟨false, ⟨100, 10, 0, 1, 1, 0, 1⟩⟩ rfl

/-! ## Counting lemmas for completion reachability -/

theorem unitsOfRow_pos {r : Row} (hrc : 1 ≤ r.repeatCount)
    (hne : FlattenInstructions r.instructions ≠ []) : 1 ≤ unitsOfRow r := by
  have h1 : 1 ≤ r.repeatCount.toNat := by omega
  have h2 : 1 ≤ (FlattenInstructions r.instructions).length := List.length_pos.mpr hne
  calc 1 = 1 * 1 := by ring
  _ ≤ r.repeatCount.toNat * (FlattenInstructions r.instructions).length :=
    Nat.mul_le_mul h1 h2

theorem unitsOfSection_eq_zero_of_empty {sec : PatternSection}
    (h : ∀ r ∈ sec.rows, FlattenInstructions r.instructions = []) :
    unitsOfSection sec = 0 := by
  refine List.sum_eq_zero ?_
  intro x hx
  obtain ⟨r, hr, rfl⟩ := List.mem_map.mp hx
  unfold unitsOfRow
  rw [h r hr]
  simp

theorem rowGetD_drop_cons {l : List Row} {n : Nat} {a : Row} (h : l.get? n = some a) :
    l.drop n = a :: l.drop (n + 1) := by
  have hlt : n < l.length := by
    by_contra hc
    rw [List.get?_eq_none.mpr (by omega)] at h
    cases h
  have hE : l[n]? = some a := by
    rw [← List.get?_eq_getElem?]
    exact h
  obtain ⟨hh, heq⟩ := List.getElem?_eq_some.mp hE
  rw [List.drop_eq_getElem_cons hlt, heq]

theorem secGetD_drop_cons {l : List PatternSection} {n : Nat} {a : PatternSection}
    (h : l.get? n = some a) : l.drop n = a :: l.drop (n + 1) := by
  have hlt : n < l.length := by
    by_contra hc
    rw [List.get?_eq_none.mpr (by omega)] at h
    cases h
  have hE : l[n]? = some a := by
    rw [← List.get?_eq_getElem?]
    exact h
  obtain ⟨hh, heq⟩ := List.getElem?_eq_some.mp hE
  rw [List.drop_eq_getElem_cons hlt, heq]

theorem rowHead_cons {l : List Row} {a : Row} (h : l.get? 0 = some a) :
    l = a :: l.drop 1 := by
  have := rowGetD_drop_cons h
  simpa using this

theorem unitsOfSection_cons_head {sec : PatternSection} {r : Row}
    (h : sec.rows.get? 0 = some r) :
    unitsOfSection sec = unitsOfRow r + ((sec.rows.drop 1).map unitsOfRow).sum := by
  unfold unitsOfSection
  rw [show sec.rows = r :: sec.rows.drop 1 from rowHead_cons h]
  simp

theorem unitsOfRow_succ_repeat {r : Row} (h : 1 ≤ r.repeatCount) :
    unitsOfRow r =
      (r.repeatCount - 1).toNat * (FlattenInstructions r.instructions).length
        + (FlattenInstructions r.instructions).length := by
  unfold unitsOfRow
  have : r.repeatCount.toNat = (r.repeatCount - 1).toNat + 1 := by omega
  rw [this, Nat.succ_mul]

theorem remainingUnits_pos {sections : List PatternSection} {p : WorkProgress}
    (hval : ValidCursor sections p) : 1 ≤ remainingUnits sections p := by
  obtain ⟨sec, sIdx, row, rIdx, k, hsec, hrow, hk, hsc, hrr0, hrrlt⟩ := hval
  obtain ⟨hklen, -⟩ := findFlatIdx?_some hk
  have hform : remainingUnits sections p =
      ((FlattenInstructions row.instructions).length - k)
        + (row.repeatCount - 1 - p.rowRepeatIndex).toNat *
            (FlattenInstructions row.instructions).length
        + ((sec.rows.drop (rIdx + 1)).map unitsOfRow).sum
        + ((sections.drop (sIdx + 1)).map unitsOfSection).sum := by
    simp only [remainingUnits, hsec, hrow, hk, Option.getD_some]
  omega

/-- When exactly one unit remains, Advance completes the session without
touching the cursor. -/
theorem advance_step_complete {sections : List PatternSection} {st : EngineState}
    (hwf : WFPattern sections) (hner : NoEmptyRows sections)
    (hval : ValidCursor sections st.progress) (hc : st.completed = false)
    (hr : remainingUnits sections st.progress = 1) :
    AdvanceProgress sections st = .ok ({ st with completed := true }, true) := by
  obtain ⟨sec, sIdx, row, rIdx, k, hsec, hrow, hk, hsc, hrr0, hrrlt⟩ := hval
  obtain ⟨hgets, hsecid⟩ := findSectionByID_some hsec
  obtain ⟨hgetr, hrowid⟩ := findRowByID_some hrow
  obtain ⟨hklen, hmatch⟩ := findFlatIdx?_some hk
  have hform : remainingUnits sections st.progress =
      ((FlattenInstructions row.instructions).length - k)
        + (row.repeatCount - 1 - st.progress.rowRepeatIndex).toNat *
            (FlattenInstructions row.instructions).length
        + ((sec.rows.drop (rIdx + 1)).map unitsOfRow).sum
        + ((sections.drop (sIdx + 1)).map unitsOfSection).sum := by
    simp only [remainingUnits, hsec, hrow, hk, Option.getD_some]
  rw [hr] at hform
  have hlen : k + 1 = (FlattenInstructions row.instructions).length := by omega
  have hprodz : (row.repeatCount - 1 - st.progress.rowRepeatIndex).toNat *
      (FlattenInstructions row.instructions).length = 0 := by omega
  have hrep : ¬ (st.progress.rowRepeatIndex + 1 < row.repeatCount) := by
    rcases Nat.mul_eq_zero.mp hprodz with h0 | h0
    · omega
    · omega
  have hA : ((sec.rows.drop (rIdx + 1)).map unitsOfRow).sum = 0 := by omega
  have hB : ((sections.drop (sIdx + 1)).map unitsOfSection).sum = 0 := by omega
  have hnext : sec.rows.get? (rIdx + 1) = none := by
    cases hx : sec.rows.get? (rIdx + 1) with
    | none => rfl
    | some nextRow =>
      exfalso
      have hcons := rowGetD_drop_cons hx
      rw [hcons] at hA
      simp only [List.map_cons, List.sum_cons] at hA
      have hpos : 1 ≤ unitsOfRow nextRow :=
        unitsOfRow_pos
          ((hwf.2 sec (List.get?_mem hgets)).2 nextRow (List.get?_mem hx)).1
          (hner sec (List.get?_mem hgets) nextRow (List.get?_mem hx))
      omega
  have hscan : scanSectionsForward (sections.drop (sIdx + 1)) = none := by
    refine scanSectionsForward_eq_none.mpr ?_
    intro sec' hmem
    refine scanRowsForward_eq_none.mpr ?_
    intro r hrm
    exfalso
    have hsecmem : sec' ∈ sections := List.mem_of_mem_drop hmem
    have hrne : FlattenInstructions r.instructions ≠ [] := hner sec' hsecmem r hrm
    have hrpos : 1 ≤ unitsOfRow r :=
      unitsOfRow_pos ((hwf.2 sec' hsecmem).2 r hrm).1 hrne
    have hle1 : unitsOfRow r ≤ unitsOfSection sec' :=
      List.single_le_sum (fun x _ => Nat.zero_le x) _ (List.mem_map_of_mem unitsOfRow hrm)
    have hle2 : unitsOfSection sec' ≤
        ((sections.drop (sIdx + 1)).map unitsOfSection).sum :=
      List.single_le_sum (fun x _ => Nat.zero_le x) _
        (List.mem_map_of_mem unitsOfSection hmem)
    omega
  refine (AdvanceProgress_scanNoNextRow hc hsec hrow hk hlen hrep hnext).trans ?_
  rw [hscan]

theorem ValidCursor.of_parts {sections : List PatternSection} {p : WorkProgress}
    {sec : PatternSection} {sIdx : Nat} {row : Row} {rIdx : Nat} {i : Nat}
    (hwf : WFPattern sections)
    (hgets : sections.get? sIdx = some sec)
    (hgetr : sec.rows.get? rIdx = some row)
    (hsecid : p.sectionID = sec.id)
    (hrowid : p.rowID = row.id)
    (hi : i < (FlattenInstructions row.instructions).length)
    (hm : matchesProgress ((FlattenInstructions row.instructions).getD i default) p)
    (hsc : p.stitchesCompletedInRow = (i : Int))
    (hb0 : 0 ≤ p.rowRepeatIndex) (hblt : p.rowRepeatIndex < row.repeatCount) :
    ValidCursor sections p := by
  refine ⟨sec, sIdx, row, rIdx, i, ?_, ?_, ?_, hsc, hb0, hblt⟩
  · rw [hsecid]
    exact findSectionByID_of_get? hwf.1 hgets
  · rw [hrowid]
    exact findRowByID_of_get? (hwf.rowIdsNodup hgets) hgetr
  · exact findFlatIdx?_of_getD
      (FlattenInstructions_nodup (hwf.instrIdsNodup hgets hgetr)) hi hm

/-- When at least two units remain, Advance reports non-completion, keeps
the cursor valid, and decreases the remaining-unit count by exactly 1. -/
theorem advance_step_dec {sections : List PatternSection} {st : EngineState}
    (hwf : WFPattern sections) (hner : NoEmptyRows sections)
    (hval : ValidCursor sections st.progress) (hc : st.completed = false)
    (hr : 2 ≤ remainingUnits sections st.progress) :
    ∃ st', AdvanceProgress sections st = .ok (st', false) ∧ st'.completed = false ∧
      ValidCursor sections st'.progress ∧
      remainingUnits sections st'.progress + 1 = remainingUnits sections st.progress := by
  obtain ⟨sec, sIdx, row, rIdx, k, hsec, hrow, hk, hsc, hrr0, hrrlt⟩ := hval
  obtain ⟨hgets, hsecid⟩ := findSectionByID_some hsec
  obtain ⟨hgetr, hrowid⟩ := findRowByID_some hrow
  obtain ⟨hklen, hmatch⟩ := findFlatIdx?_some hk
  have hnodup : (FlattenInstructions row.instructions).Nodup :=
    FlattenInstructions_nodup (hwf.instrIdsNodup hgets hgetr)
  have hfne : FlattenInstructions row.instructions ≠ [] := by
    intro hc'
    rw [hc'] at hklen
    simp at hklen
  have hform : remainingUnits sections st.progress =
      ((FlattenInstructions row.instructions).length - k)
        + (row.repeatCount - 1 - st.progress.rowRepeatIndex).toNat *
            (FlattenInstructions row.instructions).length
        + ((sec.rows.drop (rIdx + 1)).map unitsOfRow).sum
        + ((sections.drop (sIdx + 1)).map unitsOfSection).sum := by
    simp only [remainingUnits, hsec, hrow, hk, Option.getD_some]
  by_cases hlt : k + 1 < (FlattenInstructions row.instructions).length
  · -- within the row
    refine ⟨_, AdvanceProgress_within hc hsec hrow hk hlt, hc, ?_, ?_⟩
    · exact ValidCursor.of_parts hwf hgets hgetr hsecid.symm hrowid.symm hlt
        ⟨rfl, rfl, rfl⟩ (by push_cast; ring) hrr0 hrrlt
    · show remainingUnits sections
        { st.progress with
            instructionID :=
              ((FlattenInstructions row.instructions).getD (k + 1) default).instructionID,
            stitchIndex :=
              ((FlattenInstructions row.instructions).getD (k + 1) default).stitchIndex,
            groupRepeatIndex :=
              ((FlattenInstructions row.instructions).getD (k + 1) default).groupRepeatIndex,
            stitchesCompletedInRow := (k : Int) + 1 } + 1 =
        remainingUnits sections st.progress
      have hk2 : findFlatIdx? (FlattenInstructions row.instructions)
          { st.progress with
              instructionID :=
                ((FlattenInstructions row.instructions).getD (k + 1) default).instructionID,
              stitchIndex :=
                ((FlattenInstructions row.instructions).getD (k + 1) default).stitchIndex,
              groupRepeatIndex :=
                ((FlattenInstructions row.instructions).getD (k + 1) default).groupRepeatIndex,
              stitchesCompletedInRow := (k : Int) + 1 } = some (k + 1) :=
        findFlatIdx?_of_getD hnodup hlt ⟨rfl, rfl, rfl⟩
      have hform2 : remainingUnits sections
          { st.progress with
              instructionID :=
                ((FlattenInstructions row.instructions).getD (k + 1) default).instructionID,
              stitchIndex :=
                ((FlattenInstructions row.instructions).getD (k + 1) default).stitchIndex,
              groupRepeatIndex :=
                ((FlattenInstructions row.instructions).getD (k + 1) default).groupRepeatIndex,
              stitchesCompletedInRow := (k : Int) + 1 } =
          ((FlattenInstructions row.instructions).length - (k + 1))
            + (row.repeatCount - 1 - st.progress.rowRepeatIndex).toNat *
                (FlattenInstructions row.instructions).length
            + ((sec.rows.drop (rIdx + 1)).map unitsOfRow).sum
            + ((sections.drop (sIdx + 1)).map unitsOfSection).sum := by
        simp only [remainingUnits, hsec, hrow, hk2, Option.getD_some]
      rw [hform2, hform]
      omega
  · have hlen : k + 1 = (FlattenInstructions row.instructions).length := by omega
    by_cases hrep : st.progress.rowRepeatIndex + 1 < row.repeatCount
    · -- next row repeat
      refine ⟨_, AdvanceProgress_nextRepeat hc hsec hrow hk hlen hrep, hc, ?_, ?_⟩
      · rw [setToFirstStitch_eq hfne]
        exact ValidCursor.of_parts hwf hgets hgetr hsecid.symm hrowid.symm (by omega)
          ⟨rfl, rfl, rfl⟩ (by simp)
          (by omega : (0 : Int) ≤ st.progress.rowRepeatIndex + 1)
          (by omega : st.progress.rowRepeatIndex + 1 < row.repeatCount)
      · rw [setToFirstStitch_eq hfne]
        show remainingUnits sections
          { st.progress with
              rowRepeatIndex := st.progress.rowRepeatIndex + 1,
              instructionID :=
                ((FlattenInstructions row.instructions).getD 0 default).instructionID,
              stitchIndex :=
                ((FlattenInstructions row.instructions).getD 0 default).stitchIndex,
              groupRepeatIndex :=
                ((FlattenInstructions row.instructions).getD 0 default).groupRepeatIndex,
              stitchesCompletedInRow := 0 } + 1 =
          remainingUnits sections st.progress
        have hk2 : findFlatIdx? (FlattenInstructions row.instructions)
            { st.progress with
                rowRepeatIndex := st.progress.rowRepeatIndex + 1,
                instructionID :=
                  ((FlattenInstructions row.instructions).getD 0 default).instructionID,
                stitchIndex :=
                  ((FlattenInstructions row.instructions).getD 0 default).stitchIndex,
                groupRepeatIndex :=
                  ((FlattenInstructions row.instructions).getD 0 default).groupRepeatIndex,
                stitchesCompletedInRow := 0 } = some 0 :=
          findFlatIdx?_of_getD hnodup (by omega) ⟨rfl, rfl, rfl⟩
        have hform2 : remainingUnits sections
            { st.progress with
                rowRepeatIndex := st.progress.rowRepeatIndex + 1,
                instructionID :=
                  ((FlattenInstructions row.instructions).getD 0 default).instructionID,
                stitchIndex :=
                  ((FlattenInstructions row.instructions).getD 0 default).stitchIndex,
                groupRepeatIndex :=
                  ((FlattenInstructions row.instructions).getD 0 default).groupRepeatIndex,
                stitchesCompletedInRow := 0 } =
            ((FlattenInstructions row.instructions).length - 0)
              + (row.repeatCount - 1 - (st.progress.rowRepeatIndex + 1)).toNat *
                  (FlattenInstructions row.instructions).length
              + ((sec.rows.drop (rIdx + 1)).map unitsOfRow).sum
              + ((sections.drop (sIdx + 1)).map unitsOfSection).sum := by
          simp only [remainingUnits, hsec, hrow, hk2, Option.getD_some]
        rw [hform2, hform]
        have hd : (row.repeatCount - 1 - st.progress.rowRepeatIndex).toNat =
            (row.repeatCount - 1 - (st.progress.rowRepeatIndex + 1)).toNat + 1 := by
          omega
        rw [hd, Nat.succ_mul]
        omega
    · cases hnext : sec.rows.get? (rIdx + 1) with
      | some nextRow =>
        -- next row in the section
        have hne2 : FlattenInstructions nextRow.instructions ≠ [] :=
          hner sec (List.get?_mem hgets) nextRow (List.get?_mem hnext)
        have hnodup2 : (FlattenInstructions nextRow.instructions).Nodup :=
          FlattenInstructions_nodup (hwf.instrIdsNodup hgets hnext)
        have hrc2 : 1 ≤ nextRow.repeatCount :=
          ((hwf.2 sec (List.get?_mem hgets)).2 nextRow (List.get?_mem hnext)).1
        refine ⟨_, AdvanceProgress_nextRow hc hsec hrow hk hlen hrep hnext hne2, hc, ?_, ?_⟩
        · rw [setToFirstStitch_eq hne2]
          exact ValidCursor.of_parts hwf hgets hnext hsecid.symm rfl
            (List.length_pos.mpr hne2) ⟨rfl, rfl, rfl⟩ (by simp)
            (by omega : (0 : Int) ≤ (0 : Int))
            (by omega : (0 : Int) < nextRow.repeatCount)
        · rw [setToFirstStitch_eq hne2]
          show remainingUnits sections
            { st.progress with
                rowID := nextRow.id,
                rowRepeatIndex := 0,
                instructionID :=
                  ((FlattenInstructions nextRow.instructions).getD 0 default).instructionID,
                stitchIndex :=
                  ((FlattenInstructions nextRow.instructions).getD 0 default).stitchIndex,
                groupRepeatIndex :=
                  ((FlattenInstructions nextRow.instructions).getD 0 default).groupRepeatIndex,
                stitchesCompletedInRow := 0 } + 1 =
            remainingUnits sections st.progress
          have hsec2 : findSectionByID sections st.progress.sectionID = some (sec, sIdx) :=
            hsec
          have hrow2 : findRowByID sec.rows nextRow.id = some (nextRow, rIdx + 1) :=
            findRowByID_of_get? (hwf.rowIdsNodup hgets) hnext
          have hk2 : findFlatIdx? (FlattenInstructions nextRow.instructions)
              { st.progress with
                  rowID := nextRow.id,
                  rowRepeatIndex := 0,
                  instructionID :=
                    ((FlattenInstructions nextRow.instructions).getD 0 default).instructionID,
                  stitchIndex :=
                    ((FlattenInstructions nextRow.instructions).getD 0 default).stitchIndex,
                  groupRepeatIndex :=
                    ((FlattenInstructions nextRow.instructions).getD 0 default).groupRepeatIndex,
                  stitchesCompletedInRow := 0 } = some 0 :=
            findFlatIdx?_of_getD hnodup2 (List.length_pos.mpr hne2) ⟨rfl, rfl, rfl⟩
          have hform2 : remainingUnits sections
              { st.progress with
                  rowID := nextRow.id,
                  rowRepeatIndex := 0,
                  instructionID :=
                    ((FlattenInstructions nextRow.instructions).getD 0 default).instructionID,
                  stitchIndex :=
                    ((FlattenInstructions nextRow.instructions).getD 0 default).stitchIndex,
                  groupRepeatIndex :=
                    ((FlattenInstructions nextRow.instructions).getD 0 default).groupRepeatIndex,
                  stitchesCompletedInRow := 0 } =
              ((FlattenInstructions nextRow.instructions).length - 0)
                + (nextRow.repeatCount - 1 - (0 : Int)).toNat *
                    (FlattenInstructions nextRow.instructions).length
                + ((sec.rows.drop (rIdx + 1 + 1)).map unitsOfRow).sum
                + ((sections.drop (sIdx + 1)).map unitsOfSection).sum := by
            simp only [remainingUnits, hsec2, hrow2, hk2, Option.getD_some]
          rw [hform2, hform]
          have hcons : sec.rows.drop (rIdx + 1) = nextRow :: sec.rows.drop (rIdx + 1 + 1) :=
            rowGetD_drop_cons hnext
          rw [hcons]
          simp only [List.map_cons, List.sum_cons]
          have hprod0 : (row.repeatCount - 1 - st.progress.rowRepeatIndex).toNat = 0 := by
            omega
          rw [hprod0, Nat.zero_mul]
          have hunits := unitsOfRow_succ_repeat hrc2
          have hd : nextRow.repeatCount - 1 - (0 : Int) = nextRow.repeatCount - 1 := by
            ring
          rw [hd]
          omega
      | none =>
        -- next section
        have hA0 : ((sec.rows.drop (rIdx + 1)).map unitsOfRow).sum = 0 := by
          rw [List.drop_eq_nil_of_le]
          · rfl
          · rw [List.get?_eq_none] at hnext
            exact hnext
        have hprod0 : (row.repeatCount - 1 - st.progress.rowRepeatIndex).toNat = 0 := by
          omega
        have hBpos : 1 ≤ ((sections.drop (sIdx + 1)).map unitsOfSection).sum := by
          rw [hform, hprod0, Nat.zero_mul, hA0] at hr
          omega
        cases hscan : scanSectionsForward (sections.drop (sIdx + 1)) with
        | none =>
          exfalso
          have hall := scanSectionsForward_eq_none.mp hscan
          have : ((sections.drop (sIdx + 1)).map unitsOfSection).sum = 0 := by
            refine List.sum_eq_zero ?_
            intro x hx
            obtain ⟨sec', hmem, rfl⟩ := List.mem_map.mp hx
            exact unitsOfSection_eq_zero_of_empty
              (scanRowsForward_eq_none.mp (hall sec' hmem))
          omega
        | some t =>
          obtain ⟨nsec, nrow, nflat⟩ := t
          obtain ⟨j, hgetj, hrows, hskip⟩ := scanSectionsForward_eq_some hscan
          have hgetj' : sections.get? (sIdx + 1 + j) = some nsec := by
            rw [← List.get?_drop]
            exact hgetj
          obtain ⟨hfl, hnefl, i, hgeti, hrowskip⟩ := scanRowsForward_eq_some hrows
          subst hfl
          have hi0 : i = 0 := by
            by_contra hne0
            have h0lt : 0 < i := Nat.pos_of_ne_zero hne0
            obtain ⟨r0, hr0⟩ : ∃ r0, nsec.rows.get? 0 = some r0 := by
              cases hx : nsec.rows.get? 0 with
              | none =>
                rw [List.get?_eq_none] at hx
                have hilen : i < nsec.rows.length := by
                  by_contra hc'
                  rw [List.get?_eq_none.mpr (by omega)] at hgeti
                  cases hgeti
                omega
              | some r0 => exact ⟨r0, rfl⟩
            exact hner nsec (List.get?_mem hgetj') r0 (List.get?_mem hr0)
              (hrowskip 0 r0 h0lt hr0)
          subst hi0
          have hnodup2 : (FlattenInstructions nrow.instructions).Nodup :=
            FlattenInstructions_nodup (hwf.instrIdsNodup hgetj' hgeti)
          have hrc2 : 1 ≤ nrow.repeatCount :=
            ((hwf.2 nsec (List.get?_mem hgetj')).2 nrow (List.get?_mem hgeti)).1
          have hres := AdvanceProgress_scanNoNextRow hc hsec hrow hk hlen hrep hnext
          rw [hscan] at hres
          refine ⟨_, hres, hc, ?_, ?_⟩
          · rw [setToFirstStitch_eq hnefl]
            exact ValidCursor.of_parts hwf hgetj' hgeti rfl rfl
              (List.length_pos.mpr hnefl) ⟨rfl, rfl, rfl⟩ (by simp)
              (by omega : (0 : Int) ≤ (0 : Int))
              (by omega : (0 : Int) < nrow.repeatCount)
          · rw [setToFirstStitch_eq hnefl]
            show remainingUnits sections
              { st.progress with
                  sectionID := nsec.id,
                  rowID := nrow.id,
                  rowRepeatIndex := 0,
                  instructionID :=
                    ((FlattenInstructions nrow.instructions).getD 0 default).instructionID,
                  stitchIndex :=
                    ((FlattenInstructions nrow.instructions).getD 0 default).stitchIndex,
                  groupRepeatIndex :=
                    ((FlattenInstructions nrow.instructions).getD 0 default).groupRepeatIndex,
                  stitchesCompletedInRow := 0 } + 1 =
              remainingUnits sections st.progress
            have hsec2 : findSectionByID sections nsec.id = some (nsec, sIdx + 1 + j) :=
              findSectionByID_of_get? hwf.1 hgetj'
            have hrow2 : findRowByID nsec.rows nrow.id = some (nrow, 0) :=
              findRowByID_of_get? (hwf.rowIdsNodup hgetj') hgeti
            have hk2 : findFlatIdx? (FlattenInstructions nrow.instructions)
                { st.progress with
                    sectionID := nsec.id,
                    rowID := nrow.id,
                    rowRepeatIndex := 0,
                    instructionID :=
                      ((FlattenInstructions nrow.instructions).getD 0 default).instructionID,
                    stitchIndex :=
                      ((FlattenInstructions nrow.instructions).getD 0 default).stitchIndex,
                    groupRepeatIndex :=
                      ((FlattenInstructions nrow.instructions).getD 0 default).groupRepeatIndex,
                    stitchesCompletedInRow := 0 } = some 0 :=
              findFlatIdx?_of_getD hnodup2 (List.length_pos.mpr hnefl) ⟨rfl, rfl, rfl⟩
            have hform2 : remainingUnits sections
                { st.progress with
                    sectionID := nsec.id,
                    rowID := nrow.id,
                    rowRepeatIndex := 0,
                    instructionID :=
                      ((FlattenInstructions nrow.instructions).getD 0 default).instructionID,
                    stitchIndex :=
                      ((FlattenInstructions nrow.instructions).getD 0 default).stitchIndex,
                    groupRepeatIndex :=
                      ((FlattenInstructions nrow.instructions).getD 0 default).groupRepeatIndex,
                    stitchesCompletedInRow := 0 } =
                ((FlattenInstructions nrow.instructions).length - 0)
                  + (nrow.repeatCount - 1 - (0 : Int)).toNat *
                      (FlattenInstructions nrow.instructions).length
                  + ((nsec.rows.drop (0 + 1)).map unitsOfRow).sum
                  + ((sections.drop (sIdx + 1 + j + 1)).map unitsOfSection).sum := by
              simp only [remainingUnits, hsec2, hrow2, hk2, Option.getD_some]
            rw [hform2, hform, hA0, hprod0, Nat.zero_mul]
            -- decompose the sections tail
            have hdecomp : sections.drop (sIdx + 1) =
                (sections.drop (sIdx + 1)).take j ++ sections.drop (sIdx + 1 + j) := by
              conv_lhs => rw [← List.take_append_drop j (sections.drop (sIdx + 1))]
              rw [List.drop_drop]
            have hdrop2 : sections.drop (sIdx + 1 + j) =
                nsec :: sections.drop (sIdx + 1 + j + 1) :=
              secGetD_drop_cons hgetj'
            have hmid : (((sections.drop (sIdx + 1)).take j).map unitsOfSection).sum = 0 := by
              refine List.sum_eq_zero ?_
              intro x hx
              obtain ⟨sec', hmem, rfl⟩ := List.mem_map.mp hx
              obtain ⟨j', hj'⟩ := List.mem_iff_get?.mp hmem
              obtain ⟨hj'', hjlt⟩ := take_get?_of_get? hj'
              exact unitsOfSection_eq_zero_of_empty
                (scanRowsForward_eq_none.mp (hskip j' sec' hjlt hj''))
            rw [hdecomp, hdrop2]
            simp only [List.map_append, List.sum_append, List.map_cons, List.sum_cons]
            rw [hmid]
            have hcons2 := unitsOfSection_cons_head hgeti
            have hunits := unitsOfRow_succ_repeat hrc2
            have hd : nrow.repeatCount - 1 - (0 : Int) = nrow.repeatCount - 1 := by
              ring
            rw [hd]
            simp only [Nat.zero_add] at hcons2 ⊢
            omega

/-- The initial cursor is valid and sees the whole pattern ahead of it. -/
theorem init_valid_remaining {sections : List PatternSection} {p0 : WorkProgress}
    (hwf : WFPattern sections) (hner : NoEmptyRows sections)
    (hinit : InitProgress sections = some p0) :
    ValidCursor sections p0 ∧ remainingUnits sections p0 = totalUnits sections := by
  cases hs : scanSectionsForward sections with
  | none =>
    rw [InitProgress, hs] at hinit
    cases hinit
  | some t =>
    obtain ⟨sec, row, flat⟩ := t
    rw [InitProgress, hs] at hinit
    obtain ⟨j, hgetj, hrows, hskip⟩ := scanSectionsForward_eq_some hs
    obtain ⟨hfl, hnefl, i, hgeti, hrowskip⟩ := scanRowsForward_eq_some hrows
    subst hfl
    have hi0 : i = 0 := by
      by_contra hne0
      have h0lt : 0 < i := Nat.pos_of_ne_zero hne0
      obtain ⟨r0, hr0⟩ : ∃ r0, sec.rows.get? 0 = some r0 := by
        cases hx : sec.rows.get? 0 with
        | none =>
          rw [List.get?_eq_none] at hx
          have hilen : i < sec.rows.length := by
            by_contra hc'
            rw [List.get?_eq_none.mpr (by omega)] at hgeti
            cases hgeti
          omega
        | some r0 => exact ⟨r0, rfl⟩
      exact hner sec (List.get?_mem hgetj) r0 (List.get?_mem hr0)
        (hrowskip 0 r0 h0lt hr0)
    subst hi0
    have hp0 := (Option.some.inj hinit).symm
    subst hp0
    have hnodup : (FlattenInstructions row.instructions).Nodup :=
      FlattenInstructions_nodup (hwf.instrIdsNodup hgetj hgeti)
    have hrc : 1 ≤ row.repeatCount :=
      ((hwf.2 sec (List.get?_mem hgetj)).2 row (List.get?_mem hgeti)).1
    have hhead : (FlattenInstructions row.instructions).headD default =
        (FlattenInstructions row.instructions).getD 0 default := by
      cases hfl' : FlattenInstructions row.instructions with
      | nil => rfl
      | cons a l => rfl
    constructor
    · refine ValidCursor.of_parts hwf hgetj hgeti rfl rfl (List.length_pos.mpr hnefl)
        ?_ rfl (by omega : (0 : Int) ≤ 0) (by omega : (0 : Int) < row.repeatCount)
      rw [← hhead]
      exact ⟨rfl, rfl, rfl⟩
    · have hsec2 : findSectionByID sections sec.id = some (sec, j) :=
        findSectionByID_of_get? hwf.1 hgetj
      have hrow2 : findRowByID sec.rows row.id = some (row, 0) :=
        findRowByID_of_get? (hwf.rowIdsNodup hgetj) hgeti
      have hk2 : findFlatIdx? (FlattenInstructions row.instructions)
          { sectionID := sec.id, rowID := row.id, rowRepeatIndex := 0,
            instructionID :=
              ((FlattenInstructions row.instructions).headD default).instructionID,
            stitchIndex :=
              ((FlattenInstructions row.instructions).headD default).stitchIndex,
            groupRepeatIndex :=
              ((FlattenInstructions row.instructions).headD default).groupRepeatIndex,
            stitchesCompletedInRow := 0 } = some 0 := by
        refine findFlatIdx?_of_getD hnodup (List.length_pos.mpr hnefl) ?_
        rw [← hhead]
        exact ⟨rfl, rfl, rfl⟩
      have hform2 : remainingUnits sections
          { sectionID := sec.id, rowID := row.id, rowRepeatIndex := 0,
            instructionID :=
              ((FlattenInstructions row.instructions).headD default).instructionID,
            stitchIndex :=
              ((FlattenInstructions row.instructions).headD default).stitchIndex,
            groupRepeatIndex :=
              ((FlattenInstructions row.instructions).headD default).groupRepeatIndex,
            stitchesCompletedInRow := 0 } =
          ((FlattenInstructions row.instructions).length - 0)
            + (row.repeatCount - 1 - (0 : Int)).toNat *
                (FlattenInstructions row.instructions).length
            + ((sec.rows.drop (0 + 1)).map unitsOfRow).sum
            + ((sections.drop (j + 1)).map unitsOfSection).sum := by
        simp only [remainingUnits, hsec2, hrow2, hk2, Option.getD_some]
      rw [hform2]
      have hdecomp : sections = sections.take j ++ sec :: sections.drop (j + 1) := by
        conv_lhs => rw [← List.take_append_drop j sections]
        rw [secGetD_drop_cons hgetj]
      have hmid : ((sections.take j).map unitsOfSection).sum = 0 := by
        refine List.sum_eq_zero ?_
        intro x hx
        obtain ⟨sec', hmem, rfl⟩ := List.mem_map.mp hx
        obtain ⟨j', hj'⟩ := List.mem_iff_get?.mp hmem
        obtain ⟨hj'', hjlt⟩ := take_get?_of_get? hj'
        exact unitsOfSection_eq_zero_of_empty
          (scanRowsForward_eq_none.mp (hskip j' sec' hjlt hj''))
      have htot : totalUnits sections =
          ((sections.take j).map unitsOfSection).sum + unitsOfSection sec
            + ((sections.drop (j + 1)).map unitsOfSection).sum := by
        unfold totalUnits
        conv_lhs => rw [hdecomp]
        simp [List.sum_append]
        ring
      rw [htot, hmid]
      have hcons2 := unitsOfSection_cons_head hgeti
      have hunits := unitsOfRow_succ_repeat hrc
      have hd : row.repeatCount - 1 - (0 : Int) = row.repeatCount - 1 := by
        ring
      rw [hd]
      simp only [Nat.zero_add] at hcons2 ⊢
      omega

/-- Iterating Advance `m` times from a valid non-completed state stays
non-completed and consumes exactly `m` units, while at least one unit
remains. -/
theorem advance_iter {sections : List PatternSection} {st0 : EngineState}
    (hwf : WFPattern sections) (hner : NoEmptyRows sections)
    (hv0 : ValidCursor sections st0.progress) (hc0 : st0.completed = false) :
    ∀ m, m + 1 ≤ remainingUnits sections st0.progress →
      ∃ st, advanceTimes sections st0 m = .ok st ∧ st.completed = false ∧
        ValidCursor sections st.progress ∧
        remainingUnits sections st.progress + m = remainingUnits sections st0.progress := by
  intro m
  induction m with
  | zero =>
    intro _
    exact ⟨st0, rfl, hc0, hv0, by omega⟩
  | succ n ih =>
    intro hle
    obtain ⟨st, hst, hcst, hvst, hrst⟩ := ih (by omega)
    have hr2 : 2 ≤ remainingUnits sections st.progress := by omega
    obtain ⟨st', hadv, hc', hv', hr'⟩ := advance_step_dec hwf hner hvst hcst hr2
    refine ⟨st', ?_, hc', hv', by omega⟩
    simp only [advanceTimes, hst, hadv]


/-! ## C4: completion after exactly N advances -/

/-- C4 counterexample: `gapSections` has `totalUnits = 3` stitch-units summed
across all sections, rows and row repeats, yet only 2 Advance calls from the
initial cursor already reach `completed = true`: the empty second row of
section 1 makes Advance's one-row lookahead skip section 1's third row (and
its unit) entirely, so the claimed "exactly N Advance calls" fails. -/
theorem C4_counterexample :
    totalUnits gapSections = 3 ∧
    InitProgress gapSections = some gapStart.progress ∧
    advanceTimes gapSections gapStart 2 =
      .ok ⟨true, ⟨2, 4, 0, 3, 0, 0, 0⟩⟩ :=
  ⟨rfl, rfl, rfl⟩

/-- C4 (amended): on a well-formed pattern tree in which every row's
flattened sequence is non-empty, with N = totalUnits the number of
stitch-units summed across all sections, rows and row repeats, starting the
session at the initial cursor: every prefix of fewer than N Advance calls
leaves the session non-completed, exactly N Advance calls produce
`completed = true`, and the (N+1)-th Advance call is a no-op that returns
the same completed state without changing the session or cursor. -/
theorem C4_completion_after_totalUnits {sections : List PatternSection}
    {p0 : WorkProgress}
    (hwf : WFPattern sections) (hner : NoEmptyRows sections)
    (hinit : InitProgress sections = some p0) :
    (∀ m < totalUnits sections, ∃ st,
        advanceTimes sections ⟨false, p0⟩ m = .ok st ∧ st.completed = false) ∧
    (∃ st, advanceTimes sections ⟨false, p0⟩ (totalUnits sections) = .ok st ∧
        st.completed = true ∧ AdvanceProgress sections st = .ok (st, true)) := by
  obtain ⟨hv0, hrem⟩ := init_valid_remaining hwf hner hinit
  have hv0' : ValidCursor sections (⟨false, p0⟩ : EngineState).progress := hv0
  have hrem' : remainingUnits sections (⟨false, p0⟩ : EngineState).progress =
      totalUnits sections := hrem
  have hpos : 1 ≤ totalUnits sections := by
    rw [← hrem']
    exact remainingUnits_pos hv0'
  constructor
  · intro m hm
    obtain ⟨st, hst, hc, -, -⟩ :=
      advance_iter hwf hner hv0' rfl m (by omega)
    exact ⟨st, hst, hc⟩
  · obtain ⟨st, hst, hc, hv, hr⟩ :=
      advance_iter hwf hner hv0' rfl (totalUnits sections - 1) (by omega)
    have hr1 : remainingUnits sections st.progress = 1 := by omega
    have hcomp := advance_step_complete hwf hner hv hc hr1
    refine ⟨{ st with completed := true }, ?_, rfl,
      AdvanceProgress_completed rfl⟩
    have hN : totalUnits sections = (totalUnits sections - 1) + 1 := by omega
    rw [hN]
    simp only [advanceTimes, hst, hcomp]

/-- Witness for C4 at the §8 demo pattern (7 stitch-units). -/
theorem C4_completion_after_totalUnits_witness :
    WFPattern demoSections ∧ NoEmptyRows demoSections ∧
    InitProgress demoSections = some demoInit.progress ∧
    ((∀ m < totalUnits demoSections, ∃ st,
        advanceTimes demoSections ⟨false, demoInit.progress⟩ m = .ok st ∧
          st.completed = false) ∧
     (∃ st, advanceTimes demoSections ⟨false, demoInit.progress⟩
          (totalUnits demoSections) = .ok st ∧ st.completed = true ∧
        AdvanceProgress demoSections st = .ok (st, true))) :=
  ⟨by unfold WFPattern allInstrIds; decide,
   by unfold NoEmptyRows; decide,
   rfl,
   C4_completion_after_totalUnits
     (by unfold WFPattern allInstrIds; decide)
     (by unfold NoEmptyRows; decide) rfl⟩

end StitchMap
